import Mathlib

/-!
The mssh rendezvous broker: header parsing, registry and buffered hand-off.

A shallow embedding of `internal/server/server.go`,
`internal/stream/buffered_conn.go` and `internal/stream/pipe.go`, of the
acknowledgement handling in `internal/proxy/dial.go` and
`internal/agent/agent.go`, and of `sanitizeNodeID` in `cmd/mssh/main.go`.

* A connection is identified by a number (`Conn`); what the broker does to
  connections is recorded, in program order, in a trace of `Event`s.
* Byte strings are lists of runes (`List Char`): every decision the broker
  takes on a header (`strings.Fields`, `strings.ToUpper`, the node-id
  pattern) is taken rune by rune.
* The incoming side of a connection is a `NetIn`: the segments in which the
  bytes arrive and the error that ends the stream.
* The handling of one accepted connection (`handleConn`) is one atomic
  transition of the broker state. The goroutines of `stream.Pipe` are
  modelled on their own, as a step machine run under any schedule.
* What an agent or a proxy gets from `net.Dial` is given to the model: the
  connection with its incoming side, or the failure.
* Log output and the wall clock are not modelled: the read deadline shows
  only as the `timeout` ending of a `NetIn`.
-/

namespace Mssh

/-! ## Go standard library: `unicode`, `strings` -/

/-- Go `unicode.IsSpace`: the runes with the Unicode White_Space property. -/
def isSpace (c : Char) : Bool :=
  let n := c.toNat
  (0x09 ≤ n && n ≤ 0x0d) || n == 0x20 || n == 0x85 || n == 0xa0 || n == 0x1680 ||
    (0x2000 ≤ n && n ≤ 0x200a) || n == 0x2028 || n == 0x2029 || n == 0x202f ||
    n == 0x205f || n == 0x3000

/-- Go `unicode.ToUpper`, exact on every rune that is ASCII or whose upper
case is ASCII: the ASCII small letters, U+0131 (dotless i, upper case `I`)
and U+017F (long s, upper case `S`). Every other rune has a non-ASCII upper
case, which is not tabulated here: such a rune is returned as it is. -/
def unicodeToUpper (c : Char) : Char :=
  if 'a' ≤ c ∧ c ≤ 'z' then Char.ofNat (c.toNat - 32)
  else if c = Char.ofNat 0x131 then 'I'
  else if c = Char.ofNat 0x17f then 'S'
  else c

/-- Go `strings.ToUpper`. -/
def ToUpper (s : List Char) : List Char :=
  s.map unicodeToUpper

/-- Go `strings.TrimSpace`: leading and trailing white space removed. -/
def TrimSpace (s : List Char) : List Char :=
  (s.dropWhile isSpace).rdropWhile isSpace

/-- The scan of Go `strings.Fields`: `cur` is the field being read. -/
def fieldsAux : List Char → List Char → List (List Char)
  | [], cur => if cur = [] then [] else [cur]
  | c :: cs, cur =>
    if isSpace c then
      if cur = [] then fieldsAux cs [] else cur :: fieldsAux cs []
    else fieldsAux cs (cur ++ [c])

/-- Go `strings.Fields`: the maximal runs of non-space runes. -/
def Fields (s : List Char) : List (List Char) :=
  fieldsAux s []

/-! ## Go standard library: `regexp`, for the patterns of this repository -/

/-- A bracket expression `[...]` or `[^...]`: inclusive rune ranges. -/
structure CharClass where
  negated : Bool
  ranges : List (Char × Char)

/-- Whether a rune belongs to a bracket expression. -/
def CharClass.mem (k : CharClass) (c : Char) : Bool :=
  xor k.negated (k.ranges.any fun r => decide (r.1 ≤ c) && decide (c ≤ r.2))

/-- A pattern of the shape `^?[...]+$?`: an optional start anchor, one or
more runes of a bracket expression, an optional end anchor. -/
structure Regexp where
  anchorStart : Bool
  cls : CharClass
  anchorEnd : Bool

/-- Go `(*Regexp).MatchString`: whether some substring of `s` matches. A
match is a non-empty run of class runes, starting at the start of `s` under
`^` and ending at its end under `$`. -/
def Regexp.MatchString (re : Regexp) (s : List Char) : Bool :=
  match re.anchorStart, re.anchorEnd with
  | true, true => !s.isEmpty && s.all re.cls.mem
  | true, false => (s.head?.map re.cls.mem).getD false
  | false, true => (s.getLast?.map re.cls.mem).getD false
  | false, false => s.any re.cls.mem

/-! ## Network input and `bufio.Reader` -/

/-- How a read on a connection fails. -/
inductive ReadError where
  | eof
  | timeout
  | failed
  deriving DecidableEq, Repr

/-- The incoming side of a connection: the segments in which its bytes
arrive, then the error every later read returns. -/
structure NetIn where
  chunks : List (List Char)
  ending : ReadError
  deriving DecidableEq

/-- The next segment, cut to at most `n` bytes; an empty segment delivers
nothing and the read keeps waiting. -/
def readChunks (n : Nat) : List (List Char) → Option (List Char × List (List Char))
  | [] => none
  | [] :: rest => readChunks n rest
  | (c :: cs) :: rest => some ((c :: cs).take n, (c :: cs).drop n :: rest)

/-- Go `net.Conn.Read(p)` with `len(p) = n`: some bytes and no error, or no
byte and the error. -/
def NetIn.Read (rd : NetIn) (n : Nat) : List Char × Option ReadError × NetIn :=
  if n = 0 then ([], none, rd)
  else
    match readChunks n rd.chunks with
    | some (data, rest) => (data, none, { rd with chunks := rest })
    | none => ([], some rd.ending, { rd with chunks := [] })

/-- The buffer size of `bufio.NewReader`. -/
def bufSize : Nat := 4096

/-- Go `bufio.Reader`: the source `rd`, the unread part `buf[r:w]` of its
buffer, and the pending read error. -/
structure Reader where
  rd : NetIn
  buf : List Char
  err : Option ReadError
  deriving DecidableEq

/-- Go `bufio.NewReader`. -/
def NewReader (rd : NetIn) : Reader :=
  { rd := rd, buf := [], err := none }

/-- Go `(*Reader).fill`, called on a buffer that is not full: one read of the
source into the free part of the buffer. -/
def Reader.fill (b : Reader) : Reader :=
  match b.rd.Read (bufSize - b.buf.length) with
  | (data, e, rd) => { rd := rd, buf := b.buf ++ data, err := e }

/-- Go `bytes.IndexByte`: the index of the first `d` in `l`, if any. -/
def IndexByte : List Char → Char → Option Nat
  | [], _ => none
  | c :: cs, d => if c = d then some 0 else (IndexByte cs d).map (· + 1)

/-- What every reader built by `NewReader` satisfies at all times: the buffer
holds at most `bufSize` bytes, and a read error is pending only when the
source has nothing more to deliver. -/
def Reader.WF (b : Reader) : Prop :=
  b.buf.length ≤ bufSize ∧ (b.err ≠ none → b.rd.chunks.flatten = [])

/-- The error of a `ReadSlice`: a read error or `bufio.ErrBufferFull`. -/
inductive SliceError where
  | read (e : ReadError)
  | bufferFull
  deriving DecidableEq

/-- The loop of Go `(*Reader).ReadSlice(delim)`; `s` is the length of the
part of the buffer already searched. -/
def Reader.readSliceLoop (delim : Char) : Nat → Reader → Nat → List Char × Option SliceError × Reader
  | 0, b, _ => ([], some SliceError.bufferFull, b)
  | fuel + 1, b, s =>
    match IndexByte (b.buf.drop s) delim with
    | some i => (b.buf.take (s + i + 1), none, { b with buf := b.buf.drop (s + i + 1) })
    | none =>
      match b.err with
      | some e => (b.buf, some (SliceError.read e), { b with buf := [], err := none })
      | none =>
        if bufSize ≤ b.buf.length then (b.buf, some SliceError.bufferFull, { b with buf := [] })
        else Reader.readSliceLoop delim fuel b.fill b.buf.length

/-- Go `(*Reader).ReadSlice(delim)`. Every round of the loop but the last two
adds a byte to the buffer, so `bufSize + 2` rounds are enough. -/
def Reader.ReadSlice (b : Reader) (delim : Char) : List Char × Option SliceError × Reader :=
  Reader.readSliceLoop delim (bufSize + 2) b 0

/-- All bytes a reader has not delivered yet: buffered, then still to come. -/
def Reader.pending (b : Reader) : List Char :=
  b.buf ++ b.rd.chunks.flatten

/-- The loop of Go `(*Reader).collectFragments(delim)`: full buffers are
accumulated in `acc` until `ReadSlice` ends otherwise. -/
def Reader.collectLoop (delim : Char) : Nat → Reader → List Char → List Char × Option ReadError × Reader
  | 0, b, acc => (acc, some ReadError.failed, b)
  | fuel + 1, b, acc =>
    match b.ReadSlice delim with
    | (frag, none, b1) => (acc ++ frag, none, b1)
    | (frag, some SliceError.bufferFull, b1) => Reader.collectLoop delim fuel b1 (acc ++ frag)
    | (frag, some (SliceError.read e), b1) => (acc ++ frag, some e, b1)

/-- Go `(*Reader).ReadString(delim)`: the bytes up to and including the first
`delim`, or all bytes and the error that came before a `delim`. Every round
but the last takes a full buffer out of the pending bytes. -/
def Reader.ReadString (b : Reader) (delim : Char) : List Char × Option ReadError × Reader :=
  Reader.collectLoop delim (b.pending.length + 1) b []

/-- Go `(*Reader).Read(p)` with `len(p) = n`. -/
def Reader.Read (b : Reader) (n : Nat) : List Char × Option ReadError × Reader :=
  if n = 0 then
    if b.buf ≠ [] then ([], none, b) else ([], b.err, { b with err := none })
  else if b.buf = [] then
    match b.err with
    | some e => ([], some e, { b with err := none })
    | none =>
      if bufSize ≤ n then
        match b.rd.Read n with
        | (data, e, rd) => (data, e, { rd := rd, buf := [], err := none })
      else
        match b.rd.Read bufSize with
        | (data, e, rd) =>
          if data = [] then ([], e, { rd := rd, buf := [], err := none })
          else (data.take n, none, { rd := rd, buf := data.drop n, err := e })
  else (b.buf.take n, none, { b with buf := b.buf.drop n })

/-! ## `internal/stream`: `BufferedConn` and `Pipe` -/

/-- The identity of a `net.Conn`. -/
abbrev Conn := Nat

/-- Go `stream.BufferedConn`: a connection and the reader its reads go through. -/
structure BufferedConn where
  conn : Conn
  reader : Reader
  deriving DecidableEq

/-- Go `stream.Wrap`: the connection with an existing reader, buffer included. -/
def Wrap (conn : Conn) (reader : Reader) : BufferedConn :=
  { conn := conn, reader := reader }

/-- Go `(*BufferedConn).Read(p)` with `len(p) = n`: a read of the reader. -/
def BufferedConn.Read (b : BufferedConn) (n : Nat) : List Char × Option ReadError × BufferedConn :=
  match b.reader.Read n with
  | (data, e, r) => (data, e, { b with reader := r })

/-- The bytes returned by successive `Read` calls with buffer lengths `ns`,
and the connection after them. -/
def BufferedConn.readMany (b : BufferedConn) : List Nat → List Char × BufferedConn
  | [] => ([], b)
  | n :: ns =>
    match b.Read n with
    | (data, _, b1) =>
      match BufferedConn.readMany b1 ns with
      | (more, b2) => (data ++ more, b2)

/-- What the broker does, in program order. Changes of the registry are
recorded as well, so that their place among the reads and writes is seen. -/
inductive Event where
  | read (c : Conn)
  | write (c : Conn) (data : List Char)
  | close (c : Conn)
  | store (id : List Char) (c : Conn)
  | delete (id : List Char) (c : Conn)
  | relay (a b : Conn)
  deriving DecidableEq

/-- Go `stream.Pipe(a, b)` as the broker sees it: both copy directions run
until both have ended (`relay`: they read and write both connections), then
both connections are closed. -/
def Pipe (a b : Conn) : List Event :=
  [Event.relay a b, Event.close a, Event.close b]

/-! ## `internal/server` -/

/-- Go `server.Server`: the registry `agents` (a Go map), and the trace of
what the broker has done so far. -/
structure Server where
  agents : List Char → Option BufferedConn
  trace : List Event

/-- Go `server.New`: an empty registry. -/
def New : Server :=
  { agents := fun _ => none, trace := [] }

/-- Appends events to the trace. -/
def Server.emit (s : Server) (es : List Event) : Server :=
  { s with trace := s.trace ++ es }

/-- Go `nodeIDPattern`, the pattern `^[A-Za-z0-9._-]+$`. -/
def nodeIDPattern : Regexp :=
  { anchorStart := true
    cls := { negated := false
             ranges := [('A', 'Z'), ('a', 'z'), ('0', '9'), ('.', '.'), ('_', '_'), ('-', '-')] }
    anchorEnd := true }

/-- Go `(*Server).registerAgent`. -/
def Server.registerAgent (s : Server) (conn : BufferedConn) (nodeID : List Char) : Server :=
  match s.agents nodeID with
  | some _ =>
    s.emit [Event.write conn.conn "ERROR: node-id already registered\n".toList,
      Event.close conn.conn]
  | none =>
    Server.emit { s with agents := Function.update s.agents nodeID (some conn) }
      [Event.store nodeID conn.conn, Event.write conn.conn "OK\n".toList]

/-- Go `(*Server).popAgent`: the registered connection, removed from the
registry, or nothing. -/
def Server.popAgent (s : Server) (nodeID : List Char) : Option BufferedConn × Server :=
  match s.agents nodeID with
  | none => (none, s)
  | some agent =>
    (some agent,
      Server.emit { s with agents := Function.update s.agents nodeID none }
        [Event.delete nodeID agent.conn])

/-- Go `(*Server).handleClient`. -/
def Server.handleClient (s : Server) (conn : BufferedConn) (nodeID : List Char) : Server :=
  match s.popAgent nodeID with
  | (none, s1) =>
    s1.emit [Event.write conn.conn "ERROR: agent offline\n".toList, Event.close conn.conn]
  | (some agentConn, s1) =>
    s1.emit (Event.write conn.conn "OK\n".toList :: Pipe agentConn.conn conn.conn)

/-- Go `(*Server).handleConn` on the accepted connection `raw` whose incoming
side is `inp`. -/
def Server.handleConn (s : Server) (raw : Conn) (inp : NetIn) : Server :=
  let s0 := s.emit [Event.read raw]
  match (NewReader inp).ReadString '\n' with
  | (_, some _, _) => s0.emit [Event.close raw]
  | (line, none, reader) =>
    match Fields (TrimSpace line) with
    | [p0, nodeID] =>
      let typ := ToUpper p0
      if !nodeIDPattern.MatchString nodeID then
        s0.emit [Event.write raw "ERROR: invalid node-id\n".toList, Event.close raw]
      else
        let conn := Wrap raw reader
        if typ = "AGENT".toList then s0.registerAgent conn nodeID
        else if typ = "CLIENT".toList then s0.handleClient conn nodeID
        else s0.emit [Event.write raw "ERROR: unknown type\n".toList, Event.close raw]
    | _ => s0.emit [Event.write raw "ERROR: invalid header\n".toList, Event.close raw]

/-! ## Vocabulary of the properties -/

/-- Whether an event reads, writes or closes connection `c`. A change of the
registry alone does neither. -/
def Event.on (e : Event) (c : Conn) : Bool :=
  match e with
  | Event.read a => a == c
  | Event.write a _ => a == c
  | Event.close a => a == c
  | Event.store _ _ => false
  | Event.delete _ _ => false
  | Event.relay a b => a == c || b == c

/-- Whether an event reads or writes connection `c`. -/
def Event.readsOrWrites (e : Event) (c : Conn) : Bool :=
  match e with
  | Event.read a => a == c
  | Event.write a _ => a == c
  | Event.relay a b => a == c || b == c
  | _ => false

/-- Whether connection `c` is in the registry under `id` after an event,
given whether it was before. -/
def storedAfterEvent (id : List Char) (c : Conn) (stored : Bool) (e : Event) : Bool :=
  match e with
  | Event.store k a => stored || (k == id && a == c)
  | Event.delete k a => stored && !(k == id && a == c)
  | _ => stored

/-- Whether connection `c` is in the registry under `id` after a trace. -/
def storedAfter (id : List Char) (c : Conn) : Bool → List Event → Bool
  | stored, [] => stored
  | stored, e :: es => storedAfter id c (storedAfterEvent id c stored e) es

/-- Whether a trace has no read and no write on connection `c` at any
moment at which `c` is in the registry under `id`: from the event that
stores it to the event that deletes it. `stored` tells whether it is in
the registry when the trace starts. -/
def quietWhileStored (id : List Char) (c : Conn) : Bool → List Event → Bool
  | _, [] => true
  | stored, e :: es =>
    !(stored && e.readsOrWrites c) &&
      quietWhileStored id c (storedAfterEvent id c stored e) es

/-- The broker handling accepted connections one after the other. -/
def Server.run (s : Server) : List (Conn × NetIn) → Server
  | [] => s
  | call :: calls => Server.run (s.handleConn call.1 call.2) calls

/-- The node-id grammar in words: a rune that is an ASCII letter, an ASCII
digit, a dot, an underscore or a hyphen. -/
def nodeIDRune (c : Char) : Bool :=
  c.isAlpha || c.isDigit || c == '.' || c == '_' || c == '-'

/-- The node-id grammar in words: a non-empty string of node-id runes. -/
def validNodeID (id : List Char) : Bool :=
  !id.isEmpty && id.all nodeIDRune

/-- Two runes that are the same letter, whatever the case of each. -/
def sameLetter (x y : Char) : Bool :=
  x == y || unicodeToUpper x == y || unicodeToUpper y == x

/-- Two strings that are equal up to letter case: of the same length, and
rune by rune the same letter. -/
def equalUpToCase : List Char → List Char → Bool
  | [], [] => true
  | x :: xs, y :: ys => sameLetter x y && equalUpToCase xs ys
  | _, _ => false

/-- Two strings that are equal up to ASCII letter case: of the same length,
and rune by rune the same once `A` to `Z` are written small. No other rune
has a case here. For the tags `AGENT` and `CLIENT` this is also equality
under Unicode simple case folding, which folds no other rune to one of
their letters. -/
def equalAsciiFold : List Char → List Char → Bool
  | [], [] => true
  | x :: xs, y :: ys => x.toLower == y.toLower && equalAsciiFold xs ys
  | _, _ => false

/-- The rune U+0131, small dotless i, written as `i`; every other rune as
it is. -/
def dotlessToI (c : Char) : Char :=
  if c = Char.ofNat 0x131 then 'i' else c

/-- An incoming side that delivers `text` in one segment, then ends. -/
def oneSegment (text : String) : NetIn :=
  { chunks := [text.toList], ending := ReadError.eof }

/-- A broker in which connection 1 has registered as `x1`. -/
def brokerWithX1 : Server :=
  New.handleConn 1 (oneSegment "AGENT x1\n")

/-- The connection that `brokerWithX1` holds for `x1`. -/
def connX1 : BufferedConn :=
  Wrap 1 { rd := { chunks := [[]], ending := ReadError.eof }, buf := [], err := none }

/-- A second connection, with nothing read ahead. -/
def connTwo : BufferedConn :=
  Wrap 2 (NewReader (oneSegment ""))

/-- A third connection, with nothing read ahead. -/
def connThree : BufferedConn :=
  Wrap 3 (NewReader (oneSegment ""))

/-- Connections 3 to 6 as the broker accepts them after a registration of
`x1`: a client for another identifier, a second agent for `x1`, a client
for `x1`, and a connection cut off inside its header. -/
def laterCalls : List (Conn × NetIn) :=
  [(3, oneSegment "CLIENT zz\n"), (4, oneSegment "AGENT x1\n"),
    (5, oneSegment "CLIENT x1\nhello"), (6, oneSegment "AGENT x")]

/-- An incoming side whose first segment holds a header line and the start
of what follows it. -/
def headerAndPayload : NetIn :=
  { chunks := ["AGENT x1\nSSH-".toList, "2.0\r\n".toList], ending := ReadError.eof }

/-! ## The client side: `internal/proxy` and `internal/agent` -/

/-- Go `strings.HasPrefix`: whether `s` begins with `p`. -/
def HasPrefix : List Char → List Char → Bool
  | _, [] => true
  | [], _ :: _ => false
  | x :: xs, y :: ys => x == y && HasPrefix xs ys

/-- What a successful `net.Dial` gives: the connection, its incoming side,
and whether a write on it succeeds. -/
structure Link where
  conn : Conn
  inp : NetIn
  writeOk : Bool

/-- Where a `net.Dial` goes: the rendezvous server, or the local service on
`127.0.0.1` at a port. -/
inductive DialTarget where
  | broker
  | loopback (port : Nat)
  deriving DecidableEq

/-- What an agent or a proxy does, in program order. `pipe` is a whole
`stream.Pipe`; `relayStd` is the two copy goroutines of `proxy.Run` between
the connection and standard input and output. -/
inductive NetEvent where
  | dial (target : DialTarget)
  | write (c : Conn) (data : List Char)
  | close (c : Conn)
  | pipe (a b : Conn)
  | relayStd (c : Conn)
  | sleep (seconds : Nat)
  deriving DecidableEq

/-- The errors of `proxy.Dial`. `rejected` is `fmt.Errorf(trim)`: the
trimmed response is its format string. -/
inductive DialError where
  | connect
  | sendHeader
  | readResponse (e : ReadError)
  | rejected (trim : List Char)
  deriving DecidableEq

/-- Go `proxy.Dial`, with the outcome of its `net.Dial` given: the buffered
connection or the error, and what was done. -/
def proxy.Dial (nodeID : List Char) (dialed : Option Link) :
    Except DialError BufferedConn × List NetEvent :=
  match dialed with
  | none => (Except.error DialError.connect, [NetEvent.dial DialTarget.broker])
  | some l =>
    let sent := [NetEvent.dial DialTarget.broker,
      NetEvent.write l.conn ("CLIENT ".toList ++ nodeID ++ "\n".toList)]
    if !l.writeOk then (Except.error DialError.sendHeader, sent ++ [NetEvent.close l.conn])
    else
      match (NewReader l.inp).ReadString '\n' with
      | (_, some e, _) => (Except.error (DialError.readResponse e), sent ++ [NetEvent.close l.conn])
      | (response, none, reader) =>
        let trim := TrimSpace response
        if HasPrefix trim "ERROR:".toList then
          (Except.error (DialError.rejected trim), sent ++ [NetEvent.close l.conn])
        else (Except.ok (Wrap l.conn reader), sent)

/-- Go `proxy.Run`: the error of `Dial`, or the relay between the connection
and standard input and output, then the deferred `Close`. -/
def proxy.Run (nodeID : List Char) (dialed : Option Link) : Option DialError × List NetEvent :=
  match proxy.Dial nodeID dialed with
  | (Except.error e, es) => (some e, es)
  | (Except.ok serverConn, es) =>
    (none, es ++ [NetEvent.relayStd serverConn.conn, NetEvent.close serverConn.conn])

/-- Go `agent.Options`, the fields `runOnce` uses after the server address. -/
structure AgentOptions where
  NodeID : List Char
  SSHPort : Nat

/-- The errors of `agent.runOnce`. -/
inductive AgentError where
  | connectServer
  | registerAgent
  | waitAck (e : ReadError)
  | registrationFailed (response : List Char)
  | connectSSH
  deriving DecidableEq

/-- Go `agent.runOnce`, with the outcomes of its two `net.Dial` calls given:
`server` for the rendezvous server, `ssh` for the local service. The
deferred `Close` calls come last, the later one first. -/
def agent.runOnce (opts : AgentOptions) (server : Option Link) (ssh : Option Conn) :
    Option AgentError × List NetEvent :=
  match server with
  | none => (some AgentError.connectServer, [NetEvent.dial DialTarget.broker])
  | some l =>
    let sent := [NetEvent.dial DialTarget.broker,
      NetEvent.write l.conn ("AGENT ".toList ++ opts.NodeID ++ "\n".toList)]
    if !l.writeOk then (some AgentError.registerAgent, sent ++ [NetEvent.close l.conn])
    else
      match (NewReader l.inp).ReadString '\n' with
      | (_, some e, _) => (some (AgentError.waitAck e), sent ++ [NetEvent.close l.conn])
      | (response, none, _) =>
        if TrimSpace response ≠ "OK".toList then
          (some (AgentError.registrationFailed (TrimSpace response)),
            sent ++ [NetEvent.close l.conn])
        else
          match ssh with
          | none =>
            (some AgentError.connectSSH,
              sent ++ [NetEvent.dial (DialTarget.loopback opts.SSHPort), NetEvent.close l.conn])
          | some sshConn =>
            (none,
              sent ++ [NetEvent.dial (DialTarget.loopback opts.SSHPort),
                NetEvent.pipe l.conn sshConn, NetEvent.close sshConn, NetEvent.close l.conn])

/-- Go `agent.Run`: `runOnce`, a sleep of 2 seconds, and again, without end.
One round is run for each pair of dial outcomes given. -/
def agent.Run (opts : AgentOptions) : List (Option Link × Option Conn) → List NetEvent
  | [] => []
  | env :: envs =>
    (agent.runOnce opts env.1 env.2).2 ++ NetEvent.sleep 2 :: agent.Run opts envs

/-- The error lines that `internal/server` writes. -/
def brokerErrors : List (List Char) :=
  ["ERROR: invalid header\n".toList, "ERROR: invalid node-id\n".toList,
    "ERROR: unknown type\n".toList, "ERROR: node-id already registered\n".toList,
    "ERROR: agent offline\n".toList]

/-- A link to the broker on connection 7 that answers with `text`. -/
def linkAnswering (text : String) : Link :=
  { conn := 7, inp := oneSegment text, writeOk := true }

/-- The options of an agent for `x1` in front of port 22. -/
def agentX1 : AgentOptions :=
  { NodeID := "x1".toList, SSHPort := 22 }

/-! ## `cmd/mssh`: the node-id an agent registers with -/

/-- The scan of `ReplaceAllString` for a pattern `[...]+`: every maximal run
of class runes is replaced by `repl`; `inRun` tells that the rune before was
in such a run. -/
def replaceRuns (k : CharClass) (repl : List Char) : Bool → List Char → List Char
  | _, [] => []
  | inRun, c :: cs =>
    if k.mem c then
      if inRun then replaceRuns k repl true cs else repl ++ replaceRuns k repl true cs
    else c :: replaceRuns k repl false cs

/-- Go `(*Regexp).ReplaceAllString(src, repl)` for a `repl` without `$`:
every match, taken leftmost and longest, is replaced by `repl`. -/
def Regexp.ReplaceAllString (re : Regexp) (src repl : List Char) : List Char :=
  match re.anchorStart, re.anchorEnd with
  | false, false => replaceRuns re.cls repl false src
  | true, false =>
    if (src.takeWhile re.cls.mem).isEmpty then src else repl ++ src.dropWhile re.cls.mem
  | false, true =>
    if (src.reverse.takeWhile re.cls.mem).isEmpty then src
    else src.rdropWhile re.cls.mem ++ repl
  | true, true => if re.MatchString src then repl else src

/-- Go `strings.Trim(s, cutset)`: leading and trailing runes of `cutset`
removed. -/
def Trim (s cutset : List Char) : List Char :=
  (s.dropWhile fun c => cutset.contains c).rdropWhile fun c => cutset.contains c

/-- Go `nodeIDSanitizePattern`, the pattern `[^A-Za-z0-9._-]+`. -/
def nodeIDSanitizePattern : Regexp :=
  { anchorStart := false
    cls := { negated := true
             ranges := [('A', 'Z'), ('a', 'z'), ('0', '9'), ('.', '.'), ('_', '_'), ('-', '-')] }
    anchorEnd := false }

/-- Go `sanitizeNodeID`. -/
def sanitizeNodeID (value : List Char) : List Char :=
  Trim (nodeIDSanitizePattern.ReplaceAllString value "-".toList) "-".toList

/-- The node-id that Go `runAgent` goes on with, `none` where it ends in
`log.Fatalf`; `detected` is what `defaultNodeID()` returns. -/
def runAgentNodeID (nodeID detected : List Char) : Option (List Char) :=
  if nodeID = [] then
    if detected = [] then none else some detected
  else if sanitizeNodeID nodeID = [] then none
  else some (sanitizeNodeID nodeID)

/-! ## `internal/stream`: the goroutines of `Pipe` -/

/-- A `net.Conn` handed to `stream.Pipe`: the connection, whether it comes
wrapped in a `*BufferedConn`, and whether the connection itself has a
`CloseWrite` method, as a `*net.TCPConn` has. -/
structure Peer where
  conn : Conn
  buffered : Bool
  halfClose : Bool
  deriving DecidableEq

/-- What `Pipe` does to a connection: an `io.Copy(dst, src)` has returned,
with an error or without; a half-close; a full close. -/
inductive PipeAction where
  | copyReturned (dst src : Conn)
  | closeWrite (c : Conn)
  | close (c : Conn)
  deriving DecidableEq

/-- The goroutines of one `Pipe(a, b)`: its caller, `go copy(a, b)` and
`go copy(b, a)`. -/
inductive Goroutine where
  | caller
  | copyAB
  | copyBA
  deriving DecidableEq

/-- An action and the goroutine that performs it. -/
structure PipeEvent where
  who : Goroutine
  act : PipeAction
  deriving DecidableEq

/-- Go `(*BufferedConn).CloseWrite`: the half-close of the connection inside
when it has one, else its `Close`. -/
def BufferedConn.CloseWrite (p : Peer) : PipeAction :=
  if p.halfClose then PipeAction.closeWrite p.conn else PipeAction.close p.conn

/-- The end of `copy` in `Pipe`: `dst.CloseWrite()` when `dst` has that
method, which a `*BufferedConn` always has, else `dst.Close()`. -/
def shutdownDst (dst : Peer) : PipeAction :=
  if dst.buffered then BufferedConn.CloseWrite dst
  else if dst.halfClose then PipeAction.closeWrite dst.conn
  else PipeAction.close dst.conn

/-- Where a `copy(dst, src)` goroutine is: not spawned yet, inside `io.Copy`,
after `io.Copy`, after closing `dst` with the deferred `wg.Done()` still to
run, finished. -/
inductive CopyState where
  | notStarted
  | copying
  | copied
  | shutDown
  | done
  deriving DecidableEq

/-- Where the caller of `Pipe` is: before `wg.Add(2)`, before
`go copy(a, b)`, before `go copy(b, a)`, in `wg.Wait()`, before `a.Close()`,
before `b.Close()`, returned. -/
inductive CallerState where
  | start
  | added
  | spawnedOne
  | waiting
  | woke
  | closedA
  | returned
  deriving DecidableEq

/-- The state of one `Pipe(a, b)`: the counter of the `sync.WaitGroup`,
where each goroutine is, and what has been done so far. -/
structure PipeState where
  wg : Nat
  caller : CallerState
  ab : CopyState
  ba : CopyState
  trace : List PipeEvent
  deriving DecidableEq

/-- The state in which `Pipe` is entered. -/
def Pipe.init : PipeState :=
  { wg := 0, caller := CallerState.start, ab := CopyState.notStarted,
    ba := CopyState.notStarted, trace := [] }

/-- The next place of a `copy` goroutine; one that is not spawned or has
finished stays where it is. -/
def CopyState.next : CopyState → CopyState
  | CopyState.notStarted => CopyState.notStarted
  | CopyState.copying => CopyState.copied
  | CopyState.copied => CopyState.shutDown
  | CopyState.shutDown => CopyState.done
  | CopyState.done => CopyState.done

/-- What a step of `copy(dst, src)` does to the connections. -/
def CopyState.emits (dst src : Peer) : CopyState → List PipeAction
  | CopyState.copying => [PipeAction.copyReturned dst.conn src.conn]
  | CopyState.copied => [shutdownDst dst]
  | _ => []

/-- One step of `copy(dst, src)`, run by goroutine `g`: the new place, the
counter after a `wg.Done()`, the actions appended to the trace. -/
def Pipe.copyStep (g : Goroutine) (dst src : Peer) (st : CopyState) (s : PipeState) :
    CopyState × Nat × List PipeEvent :=
  (st.next, if st = CopyState.shutDown then s.wg - 1 else s.wg,
    s.trace ++ (st.emits dst src).map fun act => { who := g, act := act })

/-- One step of goroutine `g` in `Pipe(a, b)`. A goroutine that cannot move
(`wg.Wait()` with a counter that is not zero, a finished goroutine) leaves
the state as it is. -/
def Pipe.step (a b : Peer) (s : PipeState) (g : Goroutine) : PipeState :=
  match g with
  | Goroutine.copyAB =>
    match Pipe.copyStep Goroutine.copyAB a b s.ab s with
    | (st, wg, trace) => { s with ab := st, wg := wg, trace := trace }
  | Goroutine.copyBA =>
    match Pipe.copyStep Goroutine.copyBA b a s.ba s with
    | (st, wg, trace) => { s with ba := st, wg := wg, trace := trace }
  | Goroutine.caller =>
    match s.caller with
    | CallerState.start => { s with caller := CallerState.added, wg := s.wg + 2 }
    | CallerState.added => { s with caller := CallerState.spawnedOne, ab := CopyState.copying }
    | CallerState.spawnedOne => { s with caller := CallerState.waiting, ba := CopyState.copying }
    | CallerState.waiting => if s.wg = 0 then { s with caller := CallerState.woke } else s
    | CallerState.woke =>
      { s with caller := CallerState.closedA
               trace := s.trace ++ [{ who := Goroutine.caller, act := PipeAction.close a.conn }] }
    | CallerState.closedA =>
      { s with caller := CallerState.returned
               trace := s.trace ++ [{ who := Goroutine.caller, act := PipeAction.close b.conn }] }
    | CallerState.returned => s

/-- The state of `Pipe(a, b)` after the goroutines have moved in the order
`sched`. -/
def Pipe.run (a b : Peer) (sched : List Goroutine) : PipeState :=
  sched.foldl (Pipe.step a b) Pipe.init

/-- The actions of goroutine `g` in a state, in order. -/
def PipeState.actionsOf (s : PipeState) (g : Goroutine) : List PipeAction :=
  (s.trace.filter fun e => e.who == g).map PipeEvent.act

/-- The actions a `copy(dst, src)` goroutine has behind it at a place. -/
def CopyState.behind (dst src : Peer) : CopyState → List PipeAction
  | CopyState.notStarted => []
  | CopyState.copying => []
  | CopyState.copied => [PipeAction.copyReturned dst.conn src.conn]
  | CopyState.shutDown => [PipeAction.copyReturned dst.conn src.conn, shutdownDst dst]
  | CopyState.done => [PipeAction.copyReturned dst.conn src.conn, shutdownDst dst]

/-- The actions the caller of `Pipe(a, b)` has behind it at a place. -/
def CallerState.behind (a b : Peer) : CallerState → List PipeAction
  | CallerState.closedA => [PipeAction.close a.conn]
  | CallerState.returned => [PipeAction.close a.conn, PipeAction.close b.conn]
  | _ => []

/-- What a `copy` goroutine still owes the `WaitGroup`: one `wg.Done()`
until it has finished. -/
def CopyState.undone : CopyState → Nat
  | CopyState.done => 0
  | _ => 1

/-- How the counter of the `WaitGroup` and the places of the three
goroutines go together. -/
def Pipe.control (wg : Nat) (c : CallerState) (ab ba : CopyState) : Prop :=
  match c with
  | CallerState.start => wg = 0 ∧ ab = CopyState.notStarted ∧ ba = CopyState.notStarted
  | CallerState.added => wg = 2 ∧ ab = CopyState.notStarted ∧ ba = CopyState.notStarted
  | CallerState.spawnedOne =>
    wg = ab.undone + 1 ∧ ab ≠ CopyState.notStarted ∧ ba = CopyState.notStarted
  | CallerState.waiting =>
    wg = ab.undone + ba.undone ∧ ab ≠ CopyState.notStarted ∧ ba ≠ CopyState.notStarted
  | _ => wg = 0 ∧ ab = CopyState.done ∧ ba = CopyState.done

/-- What holds in every state `Pipe(a, b)` can reach: each goroutine has done
exactly the actions that lie behind its place, in this order; the actions of
the caller come after all actions of the two `copy` goroutines; the counter
fits the places. -/
def Pipe.Inv (a b : Peer) (s : PipeState) : Prop :=
  s.actionsOf Goroutine.copyAB = s.ab.behind a b ∧
    s.actionsOf Goroutine.copyBA = s.ba.behind b a ∧
    s.actionsOf Goroutine.caller = s.caller.behind a b ∧
    s.trace = (s.trace.filter fun e => e.who != Goroutine.caller) ++
      (s.trace.filter fun e => e.who == Goroutine.caller) ∧
    Pipe.control s.wg s.caller s.ab s.ba

/-- A schedule that runs `Pipe` to its return, with the two directions
interleaved and with moves of goroutines that cannot move: `copy(b, a)`
before it is spawned, the caller in `wg.Wait()` before both are done. -/
def sampleSchedule : List Goroutine :=
  [Goroutine.caller, Goroutine.caller, Goroutine.copyBA, Goroutine.caller, Goroutine.caller,
    Goroutine.copyBA, Goroutine.copyAB, Goroutine.copyBA, Goroutine.copyAB, Goroutine.caller,
    Goroutine.copyAB, Goroutine.caller, Goroutine.copyBA, Goroutine.caller, Goroutine.caller,
    Goroutine.caller]

/-- A buffered peer over a connection with half-close, as the broker and the
agent hand to `Pipe`. -/
def peerBuffered : Peer :=
  { conn := 1, buffered := true, halfClose := true }

/-- A bare connection without half-close. -/
def peerPlain : Peer :=
  { conn := 2, buffered := false, halfClose := false }

/-! ## Reading: the network, the buffer, the header line -/

theorem readChunks_some {n : Nat} {cs : List (List Char)} {data : List Char}
    {rest : List (List Char)} (h : readChunks n cs = some (data, rest)) :
    data ++ rest.flatten = cs.flatten ∧ data.length ≤ n ∧ (0 < n → data ≠ []) := by
  induction cs with
  | nil => simp [readChunks] at h
  | cons c cs ih =>
    cases c with
    | nil => simpa [readChunks] using ih h
    | cons x xs =>
      simp only [readChunks, Option.some.injEq, Prod.mk.injEq] at h
      obtain ⟨h1, h2⟩ := h
      subst h1 h2
      refine ⟨by simp [← List.append_assoc, List.take_append_drop], by simp, ?_⟩
      intro hn
      cases n with
      | zero => omega
      | succ m => simp

theorem readChunks_none {n : Nat} {cs : List (List Char)} (h : readChunks n cs = none) :
    cs.flatten = [] := by
  induction cs with
  | nil => rfl
  | cons c cs ih =>
    cases c with
    | nil => simpa [readChunks] using ih (by simpa [readChunks] using h)
    | cons x xs => simp [readChunks] at h

theorem netRead_spec {rd rd1 : NetIn} {n : Nat} {data : List Char} {e : Option ReadError}
    (h : rd.Read n = (data, e, rd1)) :
    data ++ rd1.chunks.flatten = rd.chunks.flatten ∧ data.length ≤ n ∧
      (e = none → 0 < n → data ≠ []) ∧
      (e ≠ none → data = [] ∧ rd1.chunks = []) := by
  unfold NetIn.Read at h
  split_ifs at h with hn
  · simp only [Prod.mk.injEq] at h
    obtain ⟨h1, h2, h3⟩ := h
    subst h1 h2 h3
    simp [hn]
  · split at h
    · rename_i d r hr
      simp only [Prod.mk.injEq] at h
      obtain ⟨h1, h2, h3⟩ := h
      subst h1 h2 h3
      have := readChunks_some hr
      simp [this.1, this.2.1]
      intro h0; exact this.2.2 h0
    · rename_i hr
      simp only [Prod.mk.injEq] at h
      obtain ⟨h1, h2, h3⟩ := h
      subst h1 h2 h3
      simp [readChunks_none hr]

theorem IndexByte_none {l : List Char} {d : Char} (h : IndexByte l d = none) : d ∉ l := by
  induction l with
  | nil => simp
  | cons c cs ih =>
    unfold IndexByte at h
    split_ifs at h with hc
    simp only [Option.map_eq_none'] at h
    simp only [List.mem_cons, not_or]
    exact ⟨fun hd => hc hd.symm, ih h⟩

theorem IndexByte_some {l : List Char} {d : Char} {i : Nat} (h : IndexByte l d = some i) :
    l.take (i + 1) = l.take i ++ [d] ∧ d ∉ l.take i := by
  induction l generalizing i with
  | nil => simp [IndexByte] at h
  | cons c cs ih =>
    unfold IndexByte at h
    split_ifs at h with hc
    · simp only [Option.some.injEq] at h
      subst h
      simp [hc]
    · simp only [Option.map_eq_some'] at h
      obtain ⟨j, hj, rfl⟩ := h
      obtain ⟨h1, h2⟩ := ih hj
      refine ⟨by simp [h1], ?_⟩
      simp only [List.take_succ_cons, List.mem_cons, not_or]
      exact ⟨fun hd => hc hd.symm, h2⟩

theorem bufSize_pos : 0 < bufSize := by decide

theorem fill_spec {b : Reader} (hlen : b.buf.length < bufSize) :
    ∃ data, b.fill.buf = b.buf ++ data ∧ b.fill.pending = b.pending ∧ b.fill.WF ∧
      (b.fill.err = none → data ≠ []) ∧ (b.fill.err ≠ none → data = []) := by
  obtain ⟨data, e, rd1, hR⟩ : ∃ data e rd1, b.rd.Read (bufSize - b.buf.length) = (data, e, rd1) :=
    ⟨_, _, _, rfl⟩
  obtain ⟨h1, h2, h3, h4⟩ := netRead_spec hR
  refine ⟨data, by simp [Reader.fill, hR], ?_, ?_, ?_, ?_⟩
  · simp [Reader.fill, hR, Reader.pending, h1]
  · refine ⟨?_, ?_⟩
    · simp only [Reader.fill, hR, List.length_append]; omega
    · simp only [Reader.fill, hR]
      intro he
      simp [(h4 he).2]
  · simp only [Reader.fill, hR]
    intro he
    exact h3 he (by omega)
  · simp only [Reader.fill, hR]
    intro he
    exact (h4 he).1

theorem readSliceLoop_spec (delim : Char) :
    ∀ (fuel : Nat) (b : Reader) (s : Nat) (line : List Char) (e : Option SliceError)
      (b1 : Reader),
      b.WF → s ≤ b.buf.length → delim ∉ b.buf.take s →
      (if b.err = none then bufSize - b.buf.length + 2 else 1) ≤ fuel →
      Reader.readSliceLoop delim fuel b s = (line, e, b1) →
      line ++ b1.pending = b.pending ∧ b1.WF ∧
      (e = none → ∃ pre, line = pre ++ [delim] ∧ delim ∉ pre) ∧
      (e = some SliceError.bufferFull → delim ∉ line ∧ line ≠ []) ∧
      (∀ x, e = some (SliceError.read x) → delim ∉ line ∧ b1.pending = []) := by
  intro fuel
  induction fuel with
  | zero =>
    intro b s line e b1 _ _ _ hfuel
    split_ifs at hfuel <;> omega
  | succ fuel ih =>
    intro b s line e b1 hwf hs hnot hfuel h
    unfold Reader.readSliceLoop at h
    split at h
    · rename_i i hi
      simp only [Prod.mk.injEq] at h
      obtain ⟨h1, h2, h3⟩ := h
      subst h1 h2 h3
      obtain ⟨hi1, hi2⟩ := IndexByte_some hi
      have htake : ∀ k, b.buf.take (s + k) = b.buf.take s ++ (b.buf.drop s).take k := by
        intro k
        rw [List.take_add]
      refine ⟨by simp [Reader.pending, ← List.append_assoc, List.take_append_drop], ?_, ?_, ?_, ?_⟩
      · refine ⟨?_, hwf.2⟩
        simp only [List.length_drop]
        have := hwf.1
        omega
      · intro _
        refine ⟨b.buf.take (s + i), ?_, ?_⟩
        · rw [Nat.add_assoc, htake, htake, hi1, List.append_assoc]
        · rw [htake]
          simp only [List.mem_append, not_or]
          exact ⟨hnot, hi2⟩
      · intro h; cases h
      · intro x h; cases h
    · rename_i hi
      have hmem : delim ∉ b.buf := by
        have := IndexByte_none hi
        rw [← List.take_append_drop s b.buf]
        simp only [List.mem_append, not_or]
        exact ⟨hnot, this⟩
      split at h
      · rename_i x hx
        simp only [Prod.mk.injEq] at h
        obtain ⟨h1, h2, h3⟩ := h
        subst h1 h2 h3
        have hch := hwf.2 (by simp [hx])
        refine ⟨by simp [Reader.pending], ?_, ?_, ?_, ?_⟩
        · exact ⟨by simp, by simp⟩
        · intro h; cases h
        · intro h; cases h
        · intro y _
          exact ⟨hmem, by simp [Reader.pending, hch]⟩
      · rename_i hx
        split_ifs at h with hfull
        · simp only [Prod.mk.injEq] at h
          obtain ⟨h1, h2, h3⟩ := h
          subst h1 h2 h3
          refine ⟨by simp [Reader.pending], ?_, ?_, ?_, ?_⟩
          · exact ⟨by simp, hwf.2⟩
          · intro h; cases h
          · intro _
            refine ⟨hmem, ?_⟩
            intro hnil
            have := bufSize_pos
            simp [hnil] at hfull
            omega
          · intro y h; cases h
        · have hlt : b.buf.length < bufSize := by omega
          obtain ⟨data, hf1, hf2, hf3, hf4, hf5⟩ := fill_spec hlt
          have := ih b.fill b.buf.length line e b1 hf3 (by simp [hf1])
            (by simpa [hf1] using hmem) ?_ h
          · rw [hf2] at this
            exact this
          · simp only [hx, if_true] at hfuel
            by_cases he : b.fill.err = none
            · have hd := hf4 he
              have : 0 < data.length := List.length_pos.mpr hd
              simp only [he, if_true, hf1, List.length_append]
              omega
            · simp only [he, if_false]
              omega

theorem first_delim_unique {d : Char} :
    ∀ (pre header p rest : List Char), d ∉ pre → d ∉ header →
      pre ++ d :: p = header ++ d :: rest → pre = header ∧ p = rest := by
  intro pre
  induction pre with
  | nil =>
    intro header p rest _ hh h
    cases header with
    | nil => simpa using h
    | cons x xs =>
      simp only [List.nil_append, List.cons_append, List.cons.injEq] at h
      exact absurd (by simp [h.1]) hh
  | cons a as ih =>
    intro header p rest hp hh h
    cases header with
    | nil =>
      simp only [List.cons_append, List.nil_append, List.cons.injEq] at h
      exact absurd (by simp [h.1]) hp
    | cons x xs =>
      simp only [List.cons_append, List.cons.injEq] at h
      simp only [List.mem_cons, not_or] at hp hh
      obtain ⟨h1, h2⟩ := ih xs p rest hp.2 hh.2 h.2
      exact ⟨by rw [h.1, h1], h2⟩

theorem collectLoop_spec (delim : Char) :
    ∀ (fuel : Nat) (b : Reader) (acc out : List Char) (e : Option ReadError) (b1 : Reader),
      b.WF → b.pending.length + 1 ≤ fuel →
      Reader.collectLoop delim fuel b acc = (out, e, b1) →
      ∃ line, out = acc ++ line ∧ line ++ b1.pending = b.pending ∧ b1.WF ∧
        (e = none → ∃ pre, line = pre ++ [delim] ∧ delim ∉ pre) ∧
        (e ≠ none → delim ∉ line ∧ b1.pending = []) := by
  intro fuel
  induction fuel with
  | zero => intro b acc out e b1 _ hfuel; omega
  | succ fuel ih =>
    intro b acc out e b1 hwf hfuel h
    obtain ⟨frag, se, b2, hS⟩ : ∃ frag se b2, b.ReadSlice delim = (frag, se, b2) := ⟨_, _, _, rfl⟩
    have hspec := readSliceLoop_spec delim (bufSize + 2) b 0 frag se b2 hwf (by omega)
      (by simp) (by split_ifs <;> omega) hS
    obtain ⟨hp, hwf2, hnone, hfull, hio⟩ := hspec
    unfold Reader.collectLoop at h
    rw [hS] at h
    cases se with
    | none =>
      simp only [Prod.mk.injEq] at h
      obtain ⟨h1, h2, h3⟩ := h
      subst h1 h2 h3
      exact ⟨frag, rfl, hp, hwf2, fun _ => hnone rfl, fun hne => absurd rfl hne⟩
    | some x =>
      cases x with
      | read y =>
        simp only [Prod.mk.injEq] at h
        obtain ⟨h1, h2, h3⟩ := h
        subst h1 h2 h3
        exact ⟨frag, rfl, hp, hwf2, fun hn => (by cases hn), fun _ => hio y rfl⟩
      | bufferFull =>
        simp only at h
        obtain ⟨hd, hne⟩ := hfull rfl
        have hlen : b2.pending.length + 1 ≤ fuel := by
          have h1 := congrArg List.length hp
          have h2 : 0 < frag.length := List.length_pos.mpr hne
          simp only [List.length_append] at h1
          omega
        obtain ⟨line, hl1, hl2, hl3, hl4, hl5⟩ := ih b2 (acc ++ frag) out e b1 hwf2 hlen h
        refine ⟨frag ++ line, by simp [hl1], by rw [List.append_assoc, hl2, hp], hl3, ?_, ?_⟩
        · intro he
          obtain ⟨pre, hpre, hnot⟩ := hl4 he
          refine ⟨frag ++ pre, by simp [hpre], ?_⟩
          simp only [List.mem_append, not_or]
          exact ⟨hd, hnot⟩
        · intro he
          obtain ⟨hnot, hpend⟩ := hl5 he
          refine ⟨?_, hpend⟩
          simp only [List.mem_append, not_or]
          exact ⟨hd, hnot⟩

theorem NewReader_WF (inp : NetIn) : (NewReader inp).WF :=
  ⟨by simp [NewReader], by simp [NewReader]⟩

theorem NewReader_pending (inp : NetIn) : (NewReader inp).pending = inp.chunks.flatten := by
  simp [NewReader, Reader.pending]

/-- A complete line is read whole, and what follows it stays pending. -/
theorem ReadString_line (delim : Char) (inp : NetIn) (header rest : List Char)
    (hh : delim ∉ header) (hin : inp.chunks.flatten = header ++ delim :: rest) :
    ∃ r, (NewReader inp).ReadString delim = (header ++ [delim], none, r) ∧
      r.pending = rest ∧ r.WF := by
  obtain ⟨out, e, r, hR⟩ : ∃ out e r, (NewReader inp).ReadString delim = (out, e, r) :=
    ⟨_, _, _, rfl⟩
  obtain ⟨line, hl1, hl2, hl3, hl4, hl5⟩ :=
    collectLoop_spec delim _ _ _ _ _ _ (NewReader_WF inp) (le_refl _) hR
  rw [NewReader_pending, hin] at hl2
  simp only [List.nil_append] at hl1
  subst hl1
  cases e with
  | none =>
    obtain ⟨pre, hpre, hnot⟩ := hl4 rfl
    subst hpre
    rw [List.append_assoc, List.singleton_append] at hl2
    obtain ⟨h1, h2⟩ := first_delim_unique pre header r.pending rest hnot hh hl2
    subst h1
    exact ⟨r, hR, h2, hl3⟩
  | some x =>
    obtain ⟨hnot, hpend⟩ := hl5 (by simp)
    rw [hpend, List.append_nil] at hl2
    rw [hl2] at hnot
    exact absurd (by simp) hnot

/-- A stream that ends before the delimiter makes `ReadString` fail. -/
theorem ReadString_truncated (delim : Char) (inp : NetIn) (hin : delim ∉ inp.chunks.flatten) :
    ∃ line e r, (NewReader inp).ReadString delim = (line, some e, r) := by
  obtain ⟨out, e, r, hR⟩ : ∃ out e r, (NewReader inp).ReadString delim = (out, e, r) :=
    ⟨_, _, _, rfl⟩
  obtain ⟨line, hl1, hl2, hl3, hl4, hl5⟩ :=
    collectLoop_spec delim _ _ _ _ _ _ (NewReader_WF inp) (le_refl _) hR
  rw [NewReader_pending] at hl2
  cases e with
  | none =>
    obtain ⟨pre, hpre, _⟩ := hl4 rfl
    rw [← hl2, hpre] at hin
    exact absurd (by simp) hin
  | some x => exact ⟨out, x, r, hR⟩

theorem readerRead_spec {b b1 : Reader} {n : Nat} {data : List Char} {e : Option ReadError}
    (hwf : b.WF) (h : b.Read n = (data, e, b1)) :
    data ++ b1.pending = b.pending ∧ b1.WF ∧ (0 < n → b.pending ≠ [] → data ≠ []) := by
  unfold Reader.Read at h
  by_cases hn : n = 0
  · rw [if_pos hn] at h
    by_cases hb : b.buf ≠ []
    · rw [if_pos hb] at h
      simp only [Prod.mk.injEq] at h
      obtain ⟨h1, h2, h3⟩ := h
      subst h1 h2 h3
      exact ⟨by simp, hwf, fun h0 => by omega⟩
    · rw [if_neg hb] at h
      simp only [Prod.mk.injEq] at h
      obtain ⟨h1, h2, h3⟩ := h
      subst h1 h2 h3
      exact ⟨by simp [Reader.pending], ⟨hwf.1, by simp⟩, fun h0 => by omega⟩
  rw [if_neg hn] at h
  by_cases hb2 : b.buf = []
  · rw [if_pos hb2] at h
    cases hx : b.err with
    | some x =>
      rw [hx] at h
      simp only [Prod.mk.injEq] at h
      obtain ⟨h1, h2, h3⟩ := h
      subst h1 h2 h3
      have hch := hwf.2 (by simp [hx])
      refine ⟨by simp [Reader.pending], ⟨hwf.1, by simp⟩, ?_⟩
      intro _ hp
      simp [Reader.pending, hb2, hch] at hp
    | none =>
      rw [hx] at h
      simp only at h
      by_cases hbig : bufSize ≤ n
      · rw [if_pos hbig] at h
        obtain ⟨d, e1, rd1, hR⟩ : ∃ d e1 rd1, b.rd.Read n = (d, e1, rd1) := ⟨_, _, _, rfl⟩
        rw [hR] at h
        simp only [Prod.mk.injEq] at h
        obtain ⟨h1, h2, h3⟩ := h
        subst h1 h2 h3
        obtain ⟨r1, r2, r3, r4⟩ := netRead_spec hR
        refine ⟨by simp [Reader.pending, hb2, r1], ⟨by simp, by simp⟩, ?_⟩
        intro h0 hp
        cases e1 with
        | none => exact r3 rfl h0
        | some y =>
          have := r4 (by simp)
          rw [Reader.pending, hb2, List.nil_append, ← r1, this.1, this.2] at hp
          simp at hp
      · rw [if_neg hbig] at h
        obtain ⟨d, e1, rd1, hR⟩ : ∃ d e1 rd1, b.rd.Read bufSize = (d, e1, rd1) := ⟨_, _, _, rfl⟩
        rw [hR] at h
        obtain ⟨r1, r2, r3, r4⟩ := netRead_spec hR
        simp only at h
        by_cases hd : d = []
        · rw [if_pos hd] at h
          simp only [Prod.mk.injEq] at h
          obtain ⟨h1, h2, h3⟩ := h
          subst h1 h2 h3
          refine ⟨by simp [Reader.pending, hb2, ← r1, hd], ⟨by simp, by simp⟩, ?_⟩
          intro _ hp
          cases e1 with
          | none => exact absurd hd (r3 rfl bufSize_pos)
          | some y =>
            have := r4 (by simp)
            rw [Reader.pending, hb2, List.nil_append, ← r1, this.1, this.2] at hp
            simp at hp
        · rw [if_neg hd] at h
          simp only [Prod.mk.injEq] at h
          obtain ⟨h1, h2, h3⟩ := h
          subst h1 h2 h3
          refine ⟨?_, ⟨?_, ?_⟩, ?_⟩
          · simp [Reader.pending, hb2, ← r1, ← List.append_assoc, List.take_append_drop]
          · simp only [List.length_drop]; omega
          · intro he
            simp [(r4 he).2]
          · intro h0 _
            cases d with
            | nil => exact absurd rfl hd
            | cons x xs =>
              cases n with
              | zero => omega
              | succ m => simp
  · rw [if_neg hb2] at h
    simp only [Prod.mk.injEq] at h
    obtain ⟨h1, h2, h3⟩ := h
    subst h1 h2 h3
    refine ⟨by simp [Reader.pending, ← List.append_assoc, List.take_append_drop], ⟨?_, hwf.2⟩, ?_⟩
    · have := hwf.1
      simp only [List.length_drop]; omega
    · intro h0 _
      cases hbuf : b.buf with
      | nil => exact absurd hbuf hb2
      | cons x xs =>
        cases n with
        | zero => omega
        | succ m => simp

/-- With bytes in the buffer a read is served from the buffer alone. -/
theorem readerRead_buffered {b : Reader} {n : Nat} (hn : 0 < n) (hb : b.buf ≠ []) :
    b.Read n = (b.buf.take n, none, { b with buf := b.buf.drop n }) := by
  unfold Reader.Read
  rw [if_neg (by omega), if_neg hb]

theorem readMany_spec :
    ∀ (ns : List Nat) (b : BufferedConn), b.reader.WF →
      (b.readMany ns).1 ++ (b.readMany ns).2.reader.pending = b.reader.pending ∧
      (b.readMany ns).2.reader.WF ∧ (b.readMany ns).2.conn = b.conn ∧
      ((∀ n ∈ ns, 0 < n) → b.reader.pending.length ≤ ns.length →
        (b.readMany ns).1 = b.reader.pending) := by
  intro ns
  induction ns with
  | nil =>
    intro b hwf
    refine ⟨by simp [BufferedConn.readMany], hwf, rfl, ?_⟩
    intro _ hlen
    simp only [List.length_nil, Nat.le_zero, List.length_eq_zero] at hlen
    simp [BufferedConn.readMany, hlen]
  | cons n ns ih =>
    intro b hwf
    obtain ⟨d, e, r, hR⟩ : ∃ d e r, b.reader.Read n = (d, e, r) := ⟨_, _, _, rfl⟩
    obtain ⟨h1, h2, h3⟩ := readerRead_spec hwf hR
    have hb1 : b.Read n = (d, e, { b with reader := r }) := by
      simp [BufferedConn.Read, hR]
    obtain ⟨i1, i2, i3, i4⟩ := ih { b with reader := r } h2
    have hm : b.readMany (n :: ns) =
        (d ++ (BufferedConn.readMany { b with reader := r } ns).1,
          (BufferedConn.readMany { b with reader := r } ns).2) := by
      simp [BufferedConn.readMany, hb1]
    rw [hm]
    refine ⟨?_, i2, i3, ?_⟩
    · simp only at i1 ⊢
      rw [List.append_assoc, i1, h1]
    · intro hpos hlen
      simp only at i4 ⊢
      by_cases hp : b.reader.pending = []
      · rw [hp] at h1
        simp only [List.append_eq_nil] at h1
        have := i4 (fun m hm => hpos m (List.mem_cons_of_mem _ hm)) (by simp [h1.2])
        rw [this, h1.1, h1.2, hp]
        rfl
      · have hd := h3 (hpos n (List.mem_cons_self _ _)) hp
        have hdl : 0 < d.length := List.length_pos.mpr hd
        have hl := congrArg List.length h1
        simp only [List.length_append, List.length_cons] at hl hlen
        have := i4 (fun m hm => hpos m (List.mem_cons_of_mem _ hm)) (by omega)
        rw [this, h1]

/-! ## The node-id pattern and the role tag -/

theorem char_le_iff (a c : Char) : a ≤ c ↔ a.toNat ≤ c.toNat := by
  rw [Char.le_def]; rfl

theorem uint32_le_iff (a c : UInt32) : a ≤ c ↔ a.toNat ≤ c.toNat := Iff.rfl

theorem char_eq_iff (a c : Char) : a = c ↔ a.toNat = c.toNat := by
  constructor
  · intro h; rw [h]
  · intro h
    rw [← Char.ofNat_toNat a, ← Char.ofNat_toNat c, h]

theorem nodeIDPattern_mem (c : Char) : nodeIDPattern.cls.mem c = nodeIDRune c := by
  rw [Bool.eq_iff_iff]
  simp only [CharClass.mem, nodeIDPattern, nodeIDRune, Char.isAlpha, Char.isUpper, Char.isLower,
    Char.isDigit, List.any_cons, List.any_nil, Bool.false_bne, Bool.or_false, Bool.or_eq_true,
    Bool.and_eq_true, decide_eq_true_eq, beq_iff_eq, ge_iff_le, char_le_iff, uint32_le_iff,
    char_eq_iff c]
  have e1 : 'A'.toNat = 65 := rfl
  have e2 : 'Z'.toNat = 90 := rfl
  have e3 : 'a'.toNat = 97 := rfl
  have e4 : 'z'.toNat = 122 := rfl
  have e5 : '0'.toNat = 48 := rfl
  have e6 : '9'.toNat = 57 := rfl
  have e7 : '.'.toNat = 46 := rfl
  have e8 : '_'.toNat = 95 := rfl
  have e9 : '-'.toNat = 45 := rfl
  have f1 : (65 : UInt32).toNat = 65 := rfl
  have f2 : (90 : UInt32).toNat = 90 := rfl
  have f3 : (97 : UInt32).toNat = 97 := rfl
  have f4 : (122 : UInt32).toNat = 122 := rfl
  have f5 : (48 : UInt32).toNat = 48 := rfl
  have f6 : (57 : UInt32).toNat = 57 := rfl
  have g : c.val.toNat = c.toNat := rfl
  rw [e1, e2, e3, e4, e5, e6, e7, e8, e9, f1, f2, f3, f4, f5, f6, g]
  omega

theorem MatchString_nodeID (id : List Char) : nodeIDPattern.MatchString id = validNodeID id := by
  simp only [Regexp.MatchString, validNodeID, nodeIDPattern]
  congr 2
  funext c
  exact nodeIDPattern_mem c

theorem ToUpper_eq_iff_equalUpToCase :
    ∀ (t tag : List Char), (∀ c ∈ tag, unicodeToUpper c = c) →
      (ToUpper t = tag ↔ equalUpToCase t tag = true) := by
  intro t
  induction t with
  | nil =>
    intro tag _
    cases tag <;> simp [ToUpper, equalUpToCase]
  | cons x xs ih =>
    intro tag htag
    cases tag with
    | nil => simp [ToUpper, equalUpToCase]
    | cons y ys =>
      have hy : unicodeToUpper y = y := htag y (List.mem_cons_self _ _)
      have hrec := ih ys (fun c hc => htag c (List.mem_cons_of_mem _ hc))
      simp only [ToUpper] at hrec
      simp only [ToUpper, List.map_cons, List.cons.injEq, equalUpToCase, Bool.and_eq_true,
        sameLetter, Bool.or_eq_true, beq_iff_eq, hrec, hy]
      constructor
      · rintro ⟨h1, h2⟩
        exact ⟨Or.inl (Or.inr h1), h2⟩
      · rintro ⟨(h1 | h1) | h1, h2⟩
        · exact ⟨by rw [h1, hy], h2⟩
        · exact ⟨h1, h2⟩
        · exact ⟨by rw [← h1, hy], h2⟩

theorem typ_agent_iff (p0 : List Char) :
    ToUpper p0 = "AGENT".toList ↔ equalUpToCase p0 "AGENT".toList = true :=
  ToUpper_eq_iff_equalUpToCase p0 _ (by decide)

theorem typ_client_iff (p0 : List Char) :
    ToUpper p0 = "CLIENT".toList ↔ equalUpToCase p0 "CLIENT".toList = true :=
  ToUpper_eq_iff_equalUpToCase p0 _ (by decide)

/-- What `handleConn` does once a complete header line has been read. -/
theorem handleConn_of_line (s : Server) (raw : Conn) (inp : NetIn) (line : List Char)
    (r : Reader) (hR : (NewReader inp).ReadString '\n' = (line, none, r)) :
    s.handleConn raw inp =
      match Fields (TrimSpace line) with
      | [p0, nodeID] =>
        if !nodeIDPattern.MatchString nodeID then
          (s.emit [Event.read raw]).emit
            [Event.write raw "ERROR: invalid node-id\n".toList, Event.close raw]
        else if ToUpper p0 = "AGENT".toList then
          (s.emit [Event.read raw]).registerAgent (Wrap raw r) nodeID
        else if ToUpper p0 = "CLIENT".toList then
          (s.emit [Event.read raw]).handleClient (Wrap raw r) nodeID
        else
          (s.emit [Event.read raw]).emit
            [Event.write raw "ERROR: unknown type\n".toList, Event.close raw]
      | _ =>
        (s.emit [Event.read raw]).emit
          [Event.write raw "ERROR: invalid header\n".toList, Event.close raw] := by
  simp only [Server.handleConn, hR]

theorem emit_agents (s : Server) (es : List Event) : (s.emit es).agents = s.agents := rfl

theorem emit_trace (s : Server) (es : List Event) : (s.emit es).trace = s.trace ++ es := rfl

theorem registerAgent_present (s : Server) (conn orig : BufferedConn) (id : List Char)
    (h : s.agents id = some orig) :
    s.registerAgent conn id =
      s.emit [Event.write conn.conn "ERROR: node-id already registered\n".toList,
        Event.close conn.conn] := by
  simp [Server.registerAgent, h]

theorem registerAgent_absent (s : Server) (conn : BufferedConn) (id : List Char)
    (h : s.agents id = none) :
    s.registerAgent conn id =
      Server.emit { s with agents := Function.update s.agents id (some conn) }
        [Event.store id conn.conn, Event.write conn.conn "OK\n".toList] := by
  simp [Server.registerAgent, h]

theorem handleClient_present (s : Server) (conn c : BufferedConn) (id : List Char)
    (h : s.agents id = some c) :
    s.handleClient conn id =
      Server.emit { s with agents := Function.update s.agents id none }
        [Event.delete id c.conn, Event.write conn.conn "OK\n".toList,
          Event.relay c.conn conn.conn, Event.close c.conn, Event.close conn.conn] := by
  simp [Server.handleClient, Server.popAgent, h, Server.emit, Pipe]

theorem handleClient_absent (s : Server) (conn : BufferedConn) (id : List Char)
    (h : s.agents id = none) :
    s.handleClient conn id =
      s.emit [Event.write conn.conn "ERROR: agent offline\n".toList, Event.close conn.conn] := by
  simp [Server.handleClient, Server.popAgent, h]

theorem ofNat_toNat_lt (k : Nat) (h : k < 55296) : (Char.ofNat k).toNat = k := by
  have hv : k.isValidChar := Or.inl h
  simp only [Char.ofNat, hv, dite_true, Char.ofNatAux, Char.toNat]
  rfl

theorem toLower_toNat (x : Char) :
    x.toLower.toNat = if 65 ≤ x.toNat ∧ x.toNat ≤ 90 then x.toNat + 32 else x.toNat := by
  unfold Char.toLower
  simp only [ge_iff_le]
  split_ifs with h
  · exact ofNat_toNat_lt _ (by omega)
  · rfl

theorem unicodeToUpper_toNat (x : Char) :
    (unicodeToUpper x).toNat =
      if 97 ≤ x.toNat ∧ x.toNat ≤ 122 then x.toNat - 32
      else if x.toNat = 305 then 73
      else if x.toNat = 383 then 83
      else x.toNat := by
  unfold unicodeToUpper
  simp only [char_le_iff, char_eq_iff x]
  have e1 : 'a'.toNat = 97 := rfl
  have e2 : 'z'.toNat = 122 := rfl
  have e3 : (Char.ofNat 0x131).toNat = 305 := rfl
  have e4 : (Char.ofNat 0x17f).toNat = 383 := rfl
  rw [e1, e2, e3, e4]
  split_ifs with h1 h2 h3
  · exact ofNat_toNat_lt _ (by omega)
  · rfl
  · rfl
  · rfl

theorem dotlessToI_toNat (x : Char) :
    (dotlessToI x).toNat = if x.toNat = 305 then 105 else x.toNat := by
  unfold dotlessToI
  simp only [char_eq_iff x]
  have e3 : (Char.ofNat 0x131).toNat = 305 := rfl
  rw [e3]
  split_ifs <;> rfl

/-- Upper-casing a rune gives a capital ASCII letter other than `I` and `S`
exactly for the two ASCII spellings of that letter. -/
theorem upper_eq_iff_fold (x y : Char) (hy : 65 ≤ y.toNat ∧ y.toNat ≤ 90)
    (hS : y.toNat ≠ 83) (hI : y.toNat ≠ 73) :
    unicodeToUpper x = y ↔ x.toLower = y.toLower := by
  rw [char_eq_iff, char_eq_iff x.toLower, unicodeToUpper_toNat, toLower_toNat, toLower_toNat]
  split_ifs <;> omega

/-- Upper-casing a rune gives a capital ASCII letter other than `S` exactly
for the two ASCII spellings of that letter and, for `I`, for U+0131. -/
theorem upper_eq_iff_fold_dotless (x y : Char) (hy : 65 ≤ y.toNat ∧ y.toNat ≤ 90)
    (hS : y.toNat ≠ 83) :
    unicodeToUpper x = y ↔ (dotlessToI x).toLower = y.toLower := by
  rw [char_eq_iff, char_eq_iff (dotlessToI x).toLower, unicodeToUpper_toNat, toLower_toNat,
    toLower_toNat, dotlessToI_toNat]
  split_ifs <;> omega

theorem ToUpper_eq_iff_equalAsciiFold :
    ∀ (t tag : List Char),
      (∀ y ∈ tag, (65 ≤ y.toNat ∧ y.toNat ≤ 90) ∧ y.toNat ≠ 83 ∧ y.toNat ≠ 73) →
      (ToUpper t = tag ↔ equalAsciiFold t tag = true) := by
  intro t
  induction t with
  | nil =>
    intro tag _
    cases tag <;> simp [ToUpper, equalAsciiFold]
  | cons x xs ih =>
    intro tag htag
    cases tag with
    | nil => simp [ToUpper, equalAsciiFold]
    | cons y ys =>
      obtain ⟨hy, hS, hI⟩ := htag y (List.mem_cons_self _ _)
      have hrec := ih ys (fun c hc => htag c (List.mem_cons_of_mem _ hc))
      simp only [ToUpper] at hrec
      simp only [ToUpper, List.map_cons, List.cons.injEq, equalAsciiFold, Bool.and_eq_true,
        beq_iff_eq, hrec, upper_eq_iff_fold x y hy hS hI]

theorem ToUpper_eq_iff_equalAsciiFold_dotless :
    ∀ (t tag : List Char),
      (∀ y ∈ tag, (65 ≤ y.toNat ∧ y.toNat ≤ 90) ∧ y.toNat ≠ 83) →
      (ToUpper t = tag ↔ equalAsciiFold (t.map dotlessToI) tag = true) := by
  intro t
  induction t with
  | nil =>
    intro tag _
    cases tag <;> simp [ToUpper, equalAsciiFold]
  | cons x xs ih =>
    intro tag htag
    cases tag with
    | nil => simp [ToUpper, equalAsciiFold]
    | cons y ys =>
      obtain ⟨hy, hS⟩ := htag y (List.mem_cons_self _ _)
      have hrec := ih ys (fun c hc => htag c (List.mem_cons_of_mem _ hc))
      simp only [ToUpper] at hrec
      simp only [ToUpper, List.map_cons, List.cons.injEq, equalAsciiFold, Bool.and_eq_true,
        beq_iff_eq, hrec, upper_eq_iff_fold_dotless x y hy hS]

/-- The tag test for `AGENT` in `handleConn`, said without `ToUpper`. -/
theorem agent_tag_iff (p0 : List Char) :
    ToUpper p0 = "AGENT".toList ↔ equalAsciiFold p0 "AGENT".toList = true :=
  ToUpper_eq_iff_equalAsciiFold p0 _ (by decide)

/-- The tag test for `CLIENT` in `handleConn`, said without `ToUpper`. -/
theorem client_tag_iff (p0 : List Char) :
    ToUpper p0 = "CLIENT".toList ↔
      equalAsciiFold (p0.map dotlessToI) "CLIENT".toList = true :=
  ToUpper_eq_iff_equalAsciiFold_dotless p0 _ (by decide)

/-! ## Registry contract -/

/-- C1: registering an identifier that is already present writes exactly
`ERROR: node-id already registered` to the new connection, closes the new
connection and leaves the registry as it was; the connection registered
before is neither read, written nor closed. -/
theorem registerAgent_duplicate_refused (s : Server) (conn orig : BufferedConn)
    (id : List Char) (h : s.agents id = some orig) :
    (s.registerAgent conn id).agents = s.agents ∧
      (s.registerAgent conn id).agents id = some orig ∧
      (s.registerAgent conn id).trace =
        s.trace ++ [Event.write conn.conn "ERROR: node-id already registered\n".toList,
          Event.close conn.conn] ∧
      (orig.conn ≠ conn.conn →
        ∀ e ∈ (s.registerAgent conn id).trace.drop s.trace.length, e.on orig.conn = false) := by
  rw [registerAgent_present s conn orig id h]
  refine ⟨rfl, h, rfl, ?_⟩
  intro hne e he
  have hne2 : ¬ conn.conn = orig.conn := fun h => hne h.symm
  simp only [emit_trace, List.drop_left, List.mem_cons, List.mem_singleton, List.not_mem_nil,
    or_false] at he
  rcases he with rfl | rfl <;> simp [Event.on, hne2]

/-- C1 at a concrete broker: `x1` is held by connection 1 and connection 2
asks for `x1` too. -/
theorem registerAgent_duplicate_refused_witness :
    brokerWithX1.agents "x1".toList = some connX1 ∧
      (brokerWithX1.registerAgent connTwo "x1".toList).agents = brokerWithX1.agents ∧
      (brokerWithX1.registerAgent connTwo "x1".toList).agents "x1".toList = some connX1 ∧
      (brokerWithX1.registerAgent connTwo "x1".toList).trace =
        brokerWithX1.trace ++
          [Event.write connTwo.conn "ERROR: node-id already registered\n".toList,
            Event.close connTwo.conn] ∧
      (connX1.conn ≠ connTwo.conn →
        ∀ e ∈ (brokerWithX1.registerAgent connTwo "x1".toList).trace.drop
            brokerWithX1.trace.length,
          e.on connX1.conn = false) :=
  ⟨by decide, registerAgent_duplicate_refused brokerWithX1 connTwo connX1 "x1".toList (by decide)⟩

/-- C2: when `id` maps to connection `c`, `popAgent` returns exactly `c`; a
client connect removes the entry of `id` and no other, replies `OK` to the
client and relays between `c` and the client; a second client connect for
`id` right after it finds no agent, replies `ERROR: agent offline`, closes,
and changes nothing in the registry. -/
theorem handleClient_single_use (s : Server) (conn conn2 c : BufferedConn) (id : List Char)
    (h : s.agents id = some c) :
    (s.popAgent id).1 = some c ∧
      (s.popAgent id).2.agents id = none ∧
      (∀ k, k ≠ id → (s.popAgent id).2.agents k = s.agents k) ∧
      (s.handleClient conn id).agents id = none ∧
      (∀ k, k ≠ id → (s.handleClient conn id).agents k = s.agents k) ∧
      (s.handleClient conn id).trace =
        s.trace ++ [Event.delete id c.conn, Event.write conn.conn "OK\n".toList,
          Event.relay c.conn conn.conn, Event.close c.conn, Event.close conn.conn] ∧
      ((s.handleClient conn id).popAgent id).1 = none ∧
      ((s.handleClient conn id).handleClient conn2 id).agents =
        (s.handleClient conn id).agents ∧
      ((s.handleClient conn id).handleClient conn2 id).trace =
        (s.handleClient conn id).trace ++
          [Event.write conn2.conn "ERROR: agent offline\n".toList, Event.close conn2.conn] := by
  have hgone : (s.handleClient conn id).agents id = none := by
    rw [handleClient_present s conn c id h]
    simp [Server.emit]
  refine ⟨by simp [Server.popAgent, h], by simp [Server.popAgent, h, Server.emit], ?_, hgone,
    ?_, ?_, by simp [Server.popAgent, hgone], ?_, ?_⟩
  · intro k hk
    simp [Server.popAgent, h, Server.emit, Function.update_noteq hk]
  · intro k hk
    rw [handleClient_present s conn c id h]
    simp [Server.emit, Function.update_noteq hk]
  · rw [handleClient_present s conn c id h]
    rfl
  · rw [handleClient_absent _ conn2 id hgone]
    rfl
  · rw [handleClient_absent _ conn2 id hgone]
    rfl

/-- C2 at a concrete broker: connection 2 claims `x1`, then connection 3
asks for `x1`. -/
theorem handleClient_single_use_witness :
    brokerWithX1.agents "x1".toList = some connX1 ∧
      (brokerWithX1.popAgent "x1".toList).1 = some connX1 ∧
      (brokerWithX1.handleClient connTwo "x1".toList).agents "x1".toList = none ∧
      ((brokerWithX1.handleClient connTwo "x1".toList).handleClient connThree
          "x1".toList).trace =
        (brokerWithX1.handleClient connTwo "x1".toList).trace ++
          [Event.write connThree.conn "ERROR: agent offline\n".toList,
            Event.close connThree.conn] :=
  have h := handleClient_single_use brokerWithX1 connTwo connThree connX1 "x1".toList
    (by decide)
  ⟨by decide, h.1, h.2.2.2.1, h.2.2.2.2.2.2.2.2⟩

/-- C3: a client connect for an identifier that is not registered writes
exactly `ERROR: agent offline` to the client, closes the client connection,
starts no relay and leaves the registry as it was. -/
theorem handleClient_unregistered (s : Server) (conn : BufferedConn) (id : List Char)
    (h : s.agents id = none) :
    (s.handleClient conn id).agents = s.agents ∧
      (s.handleClient conn id).trace =
        s.trace ++ [Event.write conn.conn "ERROR: agent offline\n".toList,
          Event.close conn.conn] ∧
      (∀ a b, Event.relay a b ∉ (s.handleClient conn id).trace.drop s.trace.length) := by
  rw [handleClient_absent s conn id h]
  refine ⟨rfl, rfl, ?_⟩
  intro a b
  simp [emit_trace]

/-- C3 at a concrete broker: only `x1` is registered and connection 2 asks
for `x2`. -/
theorem handleClient_unregistered_witness :
    brokerWithX1.agents "x2".toList = none ∧
      (brokerWithX1.handleClient connTwo "x2".toList).agents = brokerWithX1.agents ∧
      (brokerWithX1.handleClient connTwo "x2".toList).trace =
        brokerWithX1.trace ++ [Event.write connTwo.conn "ERROR: agent offline\n".toList,
          Event.close connTwo.conn] ∧
      (∀ a b, Event.relay a b ∉
        (brokerWithX1.handleClient connTwo "x2".toList).trace.drop brokerWithX1.trace.length) :=
  ⟨by decide, handleClient_unregistered brokerWithX1 connTwo "x2".toList (by decide)⟩

theorem registerAgent_trace_cases (s : Server) (conn : BufferedConn) (id : List Char) :
    (s.registerAgent conn id).trace =
        s.trace ++ [Event.write conn.conn "ERROR: node-id already registered\n".toList,
          Event.close conn.conn] ∨
      (s.registerAgent conn id).trace =
        s.trace ++ [Event.store id conn.conn, Event.write conn.conn "OK\n".toList] := by
  cases h : s.agents id with
  | some orig => left; rw [registerAgent_present s conn orig id h]; rfl
  | none => right; rw [registerAgent_absent s conn id h]; rfl

theorem handleClient_trace_cases (s : Server) (conn : BufferedConn) (id : List Char) :
    (s.handleClient conn id).trace =
        s.trace ++ [Event.write conn.conn "ERROR: agent offline\n".toList,
          Event.close conn.conn] ∨
      ∃ c : BufferedConn, (s.handleClient conn id).trace =
        s.trace ++ [Event.delete id c.conn, Event.write conn.conn "OK\n".toList,
          Event.relay c.conn conn.conn, Event.close c.conn, Event.close conn.conn] := by
  cases h : s.agents id with
  | some c => right; exact ⟨c, by rw [handleClient_present s conn c id h]; rfl⟩
  | none => left; rw [handleClient_absent s conn id h]; rfl

/-! ## Header parsing -/

/-- C4: a header line, read whole, that does not split into exactly two
fields is answered with exactly `ERROR: invalid header`, the connection is
closed and the registry is left as it was. -/
theorem handleConn_invalid_header (s : Server) (raw : Conn) (inp : NetIn)
    (header rest : List Char) (hh : '\n' ∉ header)
    (hin : inp.chunks.flatten = header ++ '\n' :: rest)
    (hf : (Fields (TrimSpace (header ++ ['\n']))).length ≠ 2) :
    (s.handleConn raw inp).agents = s.agents ∧
      (s.handleConn raw inp).trace =
        s.trace ++ [Event.read raw, Event.write raw "ERROR: invalid header\n".toList,
          Event.close raw] := by
  obtain ⟨r, hR, _, _⟩ := ReadString_line '\n' inp header rest hh hin
  rw [handleConn_of_line s raw inp _ r hR]
  split
  · rename_i p0 nodeID heq
    rw [heq] at hf
    exact absurd rfl hf
  · exact ⟨rfl, by simp [emit_trace]⟩

/-- C4 on the header `AGENT bad id`, which has three fields. -/
theorem handleConn_invalid_header_witness :
    '\n' ∉ "AGENT bad id".toList ∧
      (oneSegment "AGENT bad id\n").chunks.flatten = "AGENT bad id".toList ++ '\n' :: [] ∧
      (Fields (TrimSpace ("AGENT bad id".toList ++ ['\n']))).length ≠ 2 ∧
      (brokerWithX1.handleConn 2 (oneSegment "AGENT bad id\n")).agents = brokerWithX1.agents ∧
      (brokerWithX1.handleConn 2 (oneSegment "AGENT bad id\n")).trace =
        brokerWithX1.trace ++
          [Event.read 2, Event.write 2 "ERROR: invalid header\n".toList, Event.close 2] :=
  ⟨by decide, by decide, by decide,
    handleConn_invalid_header brokerWithX1 2 (oneSegment "AGENT bad id\n")
      "AGENT bad id".toList [] (by decide) (by decide) (by decide)⟩

/-- C5: on a header line with exactly two fields the reply is
`ERROR: invalid node-id` (then close) if and only if the second field is not
a non-empty string of ASCII letters, ASCII digits, `.`, `_` and `-`; and then
the registry is left as it was. -/
theorem handleConn_invalid_node_id_iff (s : Server) (raw : Conn) (inp : NetIn)
    (header rest p0 id : List Char) (hh : '\n' ∉ header)
    (hin : inp.chunks.flatten = header ++ '\n' :: rest)
    (hf : Fields (TrimSpace (header ++ ['\n'])) = [p0, id]) :
    ((s.handleConn raw inp).trace =
        s.trace ++ [Event.read raw, Event.write raw "ERROR: invalid node-id\n".toList,
          Event.close raw] ↔ validNodeID id = false) ∧
      (validNodeID id = false → (s.handleConn raw inp).agents = s.agents) := by
  obtain ⟨r, hR, _, _⟩ := ReadString_line '\n' inp header rest hh hin
  rw [handleConn_of_line s raw inp _ r hR, hf]
  simp only [MatchString_nodeID]
  cases hv : validNodeID id with
  | false => simp [emit_trace, emit_agents]
  | true =>
    simp only [Bool.not_true, Bool.false_eq_true, if_false, iff_false, false_implies, and_true]
    split_ifs
    · rcases registerAgent_trace_cases (s.emit [Event.read raw]) (Wrap raw r) id with h | h <;>
        · rw [h]; simp [emit_trace, Wrap]
    · rcases handleClient_trace_cases (s.emit [Event.read raw]) (Wrap raw r) id with h | ⟨c, h⟩ <;>
        · rw [h]; simp [emit_trace, Wrap]
    · simp [emit_trace]

/-- C5 on the header `AGENT x!1`. -/
theorem handleConn_invalid_node_id_iff_witness :
    '\n' ∉ "AGENT x!1".toList ∧
      (oneSegment "AGENT x!1\n").chunks.flatten = "AGENT x!1".toList ++ '\n' :: [] ∧
      Fields (TrimSpace ("AGENT x!1".toList ++ ['\n'])) = ["AGENT".toList, "x!1".toList] ∧
      ((brokerWithX1.handleConn 2 (oneSegment "AGENT x!1\n")).trace =
        brokerWithX1.trace ++
          [Event.read 2, Event.write 2 "ERROR: invalid node-id\n".toList, Event.close 2] ↔
        validNodeID "x!1".toList = false) ∧
      (validNodeID "x!1".toList = false →
        (brokerWithX1.handleConn 2 (oneSegment "AGENT x!1\n")).agents = brokerWithX1.agents) :=
  ⟨by decide, by decide, by decide,
    handleConn_invalid_node_id_iff brokerWithX1 2 (oneSegment "AGENT x!1\n")
      "AGENT x!1".toList [] "AGENT".toList "x!1".toList (by decide) (by decide) (by decide)⟩

/-- C6, as amended: a header line with exactly two fields, a valid identifier
and a role tag that is neither `AGENT` nor `CLIENT` up to letter case is
answered with exactly `ERROR: unknown type`, the connection is closed and
the registry is left as it was. -/
theorem handleConn_unknown_type (s : Server) (raw : Conn) (inp : NetIn)
    (header rest p0 id : List Char) (hh : '\n' ∉ header)
    (hin : inp.chunks.flatten = header ++ '\n' :: rest)
    (hf : Fields (TrimSpace (header ++ ['\n'])) = [p0, id])
    (hid : validNodeID id = true)
    (hagent : equalUpToCase p0 "AGENT".toList = false)
    (hclient : equalUpToCase p0 "CLIENT".toList = false) :
    (s.handleConn raw inp).agents = s.agents ∧
      (s.handleConn raw inp).trace =
        s.trace ++ [Event.read raw, Event.write raw "ERROR: unknown type\n".toList,
          Event.close raw] := by
  obtain ⟨r, hR, _, _⟩ := ReadString_line '\n' inp header rest hh hin
  have ha : ¬ ToUpper p0 = "AGENT".toList := by
    rw [typ_agent_iff, hagent]; simp
  have hc : ¬ ToUpper p0 = "CLIENT".toList := by
    rw [typ_client_iff, hclient]; simp
  rw [handleConn_of_line s raw inp _ r hR, hf]
  simp only [MatchString_nodeID, hid, Bool.not_true, Bool.false_eq_true, if_false, ha, hc]
  exact ⟨rfl, by simp [emit_trace]⟩

/-- C6, as amended, on the header `FOO x1`. -/
theorem handleConn_unknown_type_witness :
    '\n' ∉ "FOO x1".toList ∧
      (oneSegment "FOO x1\n").chunks.flatten = "FOO x1".toList ++ '\n' :: [] ∧
      Fields (TrimSpace ("FOO x1".toList ++ ['\n'])) = ["FOO".toList, "x1".toList] ∧
      validNodeID "x1".toList = true ∧
      equalUpToCase "FOO".toList "AGENT".toList = false ∧
      equalUpToCase "FOO".toList "CLIENT".toList = false ∧
      (brokerWithX1.handleConn 2 (oneSegment "FOO x1\n")).agents = brokerWithX1.agents ∧
      (brokerWithX1.handleConn 2 (oneSegment "FOO x1\n")).trace =
        brokerWithX1.trace ++
          [Event.read 2, Event.write 2 "ERROR: unknown type\n".toList, Event.close 2] :=
  ⟨by decide, by decide, by decide, by decide, by decide, by decide,
    handleConn_unknown_type brokerWithX1 2 (oneSegment "FOO x1\n")
      "FOO x1".toList [] "FOO".toList "x1".toList (by decide) (by decide) (by decide)
      (by decide) (by decide) (by decide)⟩

/-- C6 as stated fails on the header `FOO x!1`: it has exactly two fields and
its role tag is neither `AGENT` nor `CLIENT`, yet the reply is
`ERROR: invalid node-id`, not `ERROR: unknown type`. -/
theorem handleConn_unknown_type_counterexample :
    Fields (TrimSpace "FOO x!1\n".toList) = ["FOO".toList, "x!1".toList] ∧
      equalUpToCase "FOO".toList "AGENT".toList = false ∧
      equalUpToCase "FOO".toList "CLIENT".toList = false ∧
      (New.handleConn 1 (oneSegment "FOO x!1\n")).trace =
        [Event.read 1, Event.write 1 "ERROR: invalid node-id\n".toList, Event.close 1] ∧
      (New.handleConn 1 (oneSegment "FOO x!1\n")).trace ≠
        New.trace ++
          [Event.read 1, Event.write 1 "ERROR: unknown type\n".toList, Event.close 1] := by
  decide

/-- C7, as amended: on a two-field header with a valid identifier,
`handleConn` is the agent registration of the wrapped connection under the
second field, taken as it is, exactly when the first field equals `AGENT`
up to ASCII letter case; and it is the client connect for that identifier
exactly when the first field equals `CLIENT` up to ASCII letter case once
U+0131, small dotless i, is read as `i`. -/
theorem handleConn_role_tag_dispatch (s : Server) (raw : Conn) (inp : NetIn)
    (header rest p0 id : List Char) (hh : '\n' ∉ header)
    (hin : inp.chunks.flatten = header ++ '\n' :: rest)
    (hf : Fields (TrimSpace (header ++ ['\n'])) = [p0, id])
    (hid : validNodeID id = true) :
    ∃ r, (NewReader inp).ReadString '\n' = (header ++ ['\n'], none, r) ∧
      (s.handleConn raw inp = (s.emit [Event.read raw]).registerAgent (Wrap raw r) id ↔
        equalAsciiFold p0 "AGENT".toList = true) ∧
      (s.handleConn raw inp = (s.emit [Event.read raw]).handleClient (Wrap raw r) id ↔
        equalAsciiFold (p0.map dotlessToI) "CLIENT".toList = true) := by
  obtain ⟨r, hR, _, _⟩ := ReadString_line '\n' inp header rest hh hin
  refine ⟨r, hR, ?_, ?_⟩
  · rw [handleConn_of_line s raw inp _ r hR, hf, ← agent_tag_iff]
    simp only [MatchString_nodeID, hid, Bool.not_true, Bool.false_eq_true, if_false]
    by_cases ha : ToUpper p0 = "AGENT".toList
    · simp [ha]
    · simp only [ha, if_false, iff_false]
      intro heq
      have ht := congrArg Server.trace heq
      split_ifs at ht
      · rcases handleClient_trace_cases (s.emit [Event.read raw]) (Wrap raw r) id with
          h1 | ⟨c, h1⟩ <;>
          rcases registerAgent_trace_cases (s.emit [Event.read raw]) (Wrap raw r) id with
            h2 | h2 <;>
          · rw [h1, h2] at ht; simp at ht
      · rcases registerAgent_trace_cases (s.emit [Event.read raw]) (Wrap raw r) id with
          h2 | h2 <;>
          · rw [h2] at ht; simp [emit_trace] at ht
  · rw [handleConn_of_line s raw inp _ r hR, hf, ← client_tag_iff]
    simp only [MatchString_nodeID, hid, Bool.not_true, Bool.false_eq_true, if_false]
    by_cases ha : ToUpper p0 = "AGENT".toList
    · have hc : ¬ ToUpper p0 = "CLIENT".toList := by rw [ha]; decide
      rw [if_pos ha]
      refine iff_of_false ?_ hc
      intro heq
      have ht := congrArg Server.trace heq
      rcases handleClient_trace_cases (s.emit [Event.read raw]) (Wrap raw r) id with
        h1 | ⟨c, h1⟩ <;>
        rcases registerAgent_trace_cases (s.emit [Event.read raw]) (Wrap raw r) id with
          h2 | h2 <;>
        · rw [h1, h2] at ht; simp at ht
    · by_cases hc : ToUpper p0 = "CLIENT".toList
      · simp [ha, hc]
      · simp only [ha, hc, if_false, iff_false]
        intro heq
        have ht := congrArg Server.trace heq
        rcases handleClient_trace_cases (s.emit [Event.read raw]) (Wrap raw r) id with
          h1 | ⟨c, h1⟩ <;>
          · rw [h1] at ht; simp [emit_trace] at ht

/-- C7, as amended, on the header `aGeNt X1.y`: registered under `X1.y`,
case kept. -/
theorem handleConn_role_tag_dispatch_witness :
    '\n' ∉ "aGeNt X1.y".toList ∧
      (oneSegment "aGeNt X1.y\n").chunks.flatten = "aGeNt X1.y".toList ++ '\n' :: [] ∧
      Fields (TrimSpace ("aGeNt X1.y".toList ++ ['\n'])) = ["aGeNt".toList, "X1.y".toList] ∧
      validNodeID "X1.y".toList = true ∧
      equalAsciiFold "aGeNt".toList "AGENT".toList = true ∧
      ∃ r, (NewReader (oneSegment "aGeNt X1.y\n")).ReadString '\n' =
          ("aGeNt X1.y".toList ++ ['\n'], none, r) ∧
        (New.handleConn 1 (oneSegment "aGeNt X1.y\n") =
            (New.emit [Event.read 1]).registerAgent (Wrap 1 r) "X1.y".toList ↔
          equalAsciiFold "aGeNt".toList "AGENT".toList = true) ∧
        (New.handleConn 1 (oneSegment "aGeNt X1.y\n") =
            (New.emit [Event.read 1]).handleClient (Wrap 1 r) "X1.y".toList ↔
          equalAsciiFold ("aGeNt".toList.map dotlessToI) "CLIENT".toList = true) :=
  ⟨by decide, by decide, by decide, by decide, by decide,
    handleConn_role_tag_dispatch New 1 (oneSegment "aGeNt X1.y\n")
      "aGeNt X1.y".toList [] "aGeNt".toList "X1.y".toList (by decide) (by decide) (by decide)
      (by decide)⟩

/-- C7 as stated fails on the header `cl\u0131ent x1`, whose tag is spelled
with U+0131, small dotless i: the tag does not equal `CLIENT` up to letter
case, yet the header is handled as a client connect: with no agent for `x1`
it is answered `ERROR: agent offline`, and with `x1` registered it claims
the agent and is relayed to it. -/
theorem handleConn_role_tag_counterexample :
    Fields (TrimSpace "cl\u0131ent x1\n".toList) =
        [['c', 'l', Char.ofNat 0x131, 'e', 'n', 't'], "x1".toList] ∧
      validNodeID "x1".toList = true ∧
      equalAsciiFold ['c', 'l', Char.ofNat 0x131, 'e', 'n', 't'] "CLIENT".toList = false ∧
      (New.handleConn 1 (oneSegment "cl\u0131ent x1\n")).trace =
        [Event.read 1, Event.write 1 "ERROR: agent offline\n".toList, Event.close 1] ∧
      (brokerWithX1.handleConn 2 (oneSegment "cl\u0131ent x1\n")).trace =
        brokerWithX1.trace ++
          [Event.read 2, Event.delete "x1".toList 1, Event.write 2 "OK\n".toList,
            Event.relay 1 2, Event.close 1, Event.close 2] ∧
      (brokerWithX1.handleConn 2 (oneSegment "cl\u0131ent x1\n")).agents "x1".toList = none := by
  decide

/-- C9: when the incoming bytes end before a newline, whatever they are and
however the stream ends, `handleConn` closes the connection, writes nothing
and leaves the registry as it was. -/
theorem handleConn_truncated_header (s : Server) (raw : Conn) (inp : NetIn)
    (h : '\n' ∉ inp.chunks.flatten) :
    (s.handleConn raw inp).agents = s.agents ∧
      (s.handleConn raw inp).trace = s.trace ++ [Event.read raw, Event.close raw] ∧
      (∀ data, Event.write raw data ∉ (s.handleConn raw inp).trace.drop s.trace.length) := by
  obtain ⟨line, e, r, hR⟩ := ReadString_truncated '\n' inp h
  have hS : s.handleConn raw inp = (s.emit [Event.read raw]).emit [Event.close raw] := by
    simp only [Server.handleConn, hR]
  rw [hS]
  refine ⟨rfl, by simp [emit_trace], ?_⟩
  intro data
  simp [emit_trace]

/-- C9 on `AGENT x1` cut off before its newline by the read deadline. -/
theorem handleConn_truncated_header_witness :
    '\n' ∉ (NetIn.mk ["AGENT".toList, " x1".toList] ReadError.timeout).chunks.flatten ∧
      (New.handleConn 1 (NetIn.mk ["AGENT".toList, " x1".toList] ReadError.timeout)).agents =
        New.agents ∧
      (New.handleConn 1 (NetIn.mk ["AGENT".toList, " x1".toList] ReadError.timeout)).trace =
        New.trace ++ [Event.read 1, Event.close 1] ∧
      (∀ data, Event.write 1 data ∉
        (New.handleConn 1 (NetIn.mk ["AGENT".toList, " x1".toList] ReadError.timeout)).trace.drop
          New.trace.length) :=
  ⟨by decide, handleConn_truncated_header New 1 _ (by decide)⟩

/-! ## A stored connection is left alone -/

/-- The four ways a `handleConn` can go. -/
theorem handleConn_cases (s : Server) (raw : Conn) (inp : NetIn) :
    (∃ tail, (∀ e ∈ tail, ∃ data, e = Event.write raw data ∨ e = Event.close raw) ∧
        s.handleConn raw inp = s.emit (Event.read raw :: tail)) ∨
      (∃ k r, s.agents k = none ∧
        s.handleConn raw inp =
          { agents := Function.update s.agents k (some (Wrap raw r))
            trace := s.trace ++ [Event.read raw, Event.store k raw,
              Event.write raw "OK\n".toList] }) ∨
      (∃ k c, s.agents k = some c ∧
        s.handleConn raw inp =
          { agents := Function.update s.agents k none
            trace := s.trace ++ [Event.read raw, Event.delete k c.conn,
              Event.write raw "OK\n".toList, Event.relay c.conn raw, Event.close c.conn,
              Event.close raw] }) := by
  obtain ⟨line, e, r, hR⟩ : ∃ line e r, (NewReader inp).ReadString '\n' = (line, e, r) :=
    ⟨_, _, _, rfl⟩
  have hemit : ∀ es, (s.emit [Event.read raw]).emit es = s.emit (Event.read raw :: es) := by
    intro es; simp [Server.emit]
  cases e with
  | some x =>
    left
    refine ⟨[Event.close raw], ?_, ?_⟩
    · intro e he
      simp only [List.mem_singleton] at he
      exact ⟨[], Or.inr he⟩
    · simp only [Server.handleConn, hR, hemit]
  | none =>
    rw [handleConn_of_line s raw inp line r hR]
    have herr : ∀ msg, ∃ tail,
        (∀ e ∈ tail, ∃ data, e = Event.write raw data ∨ e = Event.close raw) ∧
          (s.emit [Event.read raw]).emit [Event.write raw msg, Event.close raw] =
            s.emit (Event.read raw :: tail) := by
      intro msg
      refine ⟨[Event.write raw msg, Event.close raw], ?_, hemit _⟩
      intro e he
      simp only [List.mem_cons, List.mem_singleton, List.not_mem_nil, or_false] at he
      rcases he with rfl | rfl
      · exact ⟨msg, Or.inl rfl⟩
      · exact ⟨[], Or.inr rfl⟩
    split
    · rename_i p0 nodeID _
      split_ifs
      · exact Or.inl (herr _)
      · cases hk : s.agents nodeID with
        | some orig =>
          rw [registerAgent_present _ _ orig _ (by simpa [emit_agents] using hk)]
          exact Or.inl (herr _)
        | none =>
          rw [registerAgent_absent _ _ _ (by simpa [emit_agents] using hk)]
          exact Or.inr (Or.inl ⟨nodeID, r, hk, by simp [Server.emit, Wrap]⟩)
      · cases hk : s.agents nodeID with
        | some c =>
          rw [handleClient_present _ _ c _ (by simpa [emit_agents] using hk)]
          exact Or.inr (Or.inr ⟨nodeID, c, hk, by simp [Server.emit, Wrap]⟩)
        | none =>
          rw [handleClient_absent _ _ _ (by simpa [emit_agents] using hk)]
          exact Or.inl (herr _)
      · exact Or.inl (herr _)
    · exact Or.inl (herr _)

theorem quietWhileStored_append (id : List Char) (c : Conn) :
    ∀ (xs ys : List Event) (st : Bool),
      quietWhileStored id c st (xs ++ ys) =
        (quietWhileStored id c st xs && quietWhileStored id c (storedAfter id c st xs) ys) := by
  intro xs
  induction xs with
  | nil => intro ys st; simp [quietWhileStored, storedAfter]
  | cons x xs ih =>
    intro ys st
    simp [quietWhileStored, storedAfter, ih, Bool.and_assoc]

theorem quietWhileStored_untouched (id : List Char) (c : Conn) :
    ∀ (es : List Event) (st : Bool),
      (∀ e ∈ es, e.readsOrWrites c = false ∧ storedAfterEvent id c st e = st) →
      quietWhileStored id c st es = true ∧ storedAfter id c st es = st := by
  intro es
  induction es with
  | nil => intro st _; simp [quietWhileStored, storedAfter]
  | cons x xs ih =>
    intro st h
    obtain ⟨h1, h2⟩ := h x (List.mem_cons_self _ _)
    have := ih st (fun e he => h e (List.mem_cons_of_mem _ he))
    simp [quietWhileStored, storedAfter, h1, h2, this]

/-- One `handleConn` on another connection keeps a stored connection quiet. -/
theorem handleConn_quiet_step (conn : BufferedConn) (id : List Char) (s : Server) (raw : Conn)
    (inp : NetIn) (hraw : raw ≠ conn.conn)
    (hinv : ∀ k c, s.agents k = some c → c.conn = conn.conn → k = id ∧ c = conn) :
    ∃ new, (s.handleConn raw inp).trace = s.trace ++ new ∧
      (∀ k c, (s.handleConn raw inp).agents k = some c → c.conn = conn.conn →
        k = id ∧ c = conn) ∧
      quietWhileStored id conn.conn (decide (s.agents id = some conn)) new = true ∧
      storedAfter id conn.conn (decide (s.agents id = some conn)) new =
        decide ((s.handleConn raw inp).agents id = some conn) := by
  have hraw2 : (raw == conn.conn) = false := by simpa using hraw
  rcases handleConn_cases s raw inp with ⟨tail, htail, h⟩ | ⟨k, r, hk, h⟩ | ⟨k, c, hk, h⟩
  · rw [h]
    refine ⟨Event.read raw :: tail, rfl, hinv, ?_⟩
    have := quietWhileStored_untouched id conn.conn (Event.read raw :: tail)
      (decide (s.agents id = some conn)) ?_
    · exact ⟨this.1, by rw [this.2]; rfl⟩
    · intro e he
      simp only [List.mem_cons] at he
      rcases he with rfl | he
      · simp [Event.readsOrWrites, storedAfterEvent, hraw2]
      · obtain ⟨data, rfl | rfl⟩ := htail e he <;>
          simp [Event.readsOrWrites, storedAfterEvent, hraw2]
  · rw [h]
    refine ⟨_, rfl, ?_, ?_⟩
    · intro k1 c1 h1 hc1
      by_cases hkk : k1 = k
      · subst hkk
        simp only [Function.update_same, Option.some.injEq] at h1
        subst h1
        exact absurd hc1 hraw
      · simp only [Function.update_noteq hkk] at h1
        exact hinv k1 c1 h1 hc1
    · have := quietWhileStored_untouched id conn.conn
        [Event.read raw, Event.store k raw, Event.write raw "OK\n".toList]
        (decide (s.agents id = some conn)) ?_
      · refine ⟨this.1, ?_⟩
        rw [this.2]
        by_cases hkk : id = k
        · subst hkk
          have hne : ¬ Wrap raw r = conn := fun hw => hraw (by rw [← hw]; rfl)
          simp [hk, hne]
        · simp [Function.update_noteq hkk]
      · intro e he
        simp only [List.mem_cons, List.mem_singleton, List.not_mem_nil, or_false] at he
        rcases he with rfl | rfl | rfl <;>
          simp [Event.readsOrWrites, storedAfterEvent, hraw2]
  · rw [h]
    refine ⟨_, rfl, ?_, ?_⟩
    · intro k1 c1 h1 hc1
      by_cases hkk : k1 = k
      · subst hkk
        simp at h1
      · simp only [Function.update_noteq hkk] at h1
        exact hinv k1 c1 h1 hc1
    · by_cases hcc : c.conn = conn.conn
      · obtain ⟨rfl, rfl⟩ := hinv k c hk hcc
        simp [quietWhileStored, storedAfter, storedAfterEvent, Event.readsOrWrites, hk, hraw2]
      · have hcc2 : (c.conn == conn.conn) = false := by simpa using hcc
        have := quietWhileStored_untouched id conn.conn
          [Event.read raw, Event.delete k c.conn, Event.write raw "OK\n".toList,
            Event.relay c.conn raw, Event.close c.conn, Event.close raw]
          (decide (s.agents id = some conn)) ?_
        · refine ⟨this.1, ?_⟩
          rw [this.2]
          by_cases hkk : id = k
          · subst hkk
            have hne : ¬ c = conn := fun hw => hcc (by rw [hw])
            simp [hk, hne]
          · simp [Function.update_noteq hkk]
        · intro e he
          simp only [List.mem_cons, List.mem_singleton, List.not_mem_nil, or_false] at he
          rcases he with rfl | rfl | rfl | rfl | rfl | rfl <;>
            simp [Event.readsOrWrites, storedAfterEvent, hraw2, hcc2]

/-- Any run on other connections keeps a stored connection quiet until it is
claimed. -/
theorem run_quiet (conn : BufferedConn) (id : List Char) :
    ∀ (calls : List (Conn × NetIn)) (s : Server),
      (∀ k c, s.agents k = some c → c.conn = conn.conn → k = id ∧ c = conn) →
      (∀ call ∈ calls, call.1 ≠ conn.conn) →
      ∃ new, (s.run calls).trace = s.trace ++ new ∧
        quietWhileStored id conn.conn (decide (s.agents id = some conn)) new = true := by
  intro calls
  induction calls with
  | nil =>
    intro s _ _
    exact ⟨[], by simp [Server.run], rfl⟩
  | cons call calls ih =>
    intro s hinv hcalls
    obtain ⟨new1, ht1, hinv1, hq1, hs1⟩ := handleConn_quiet_step conn id s call.1 call.2
      (hcalls call (List.mem_cons_self _ _)) hinv
    obtain ⟨new2, ht2, hq2⟩ := ih (s.handleConn call.1 call.2) hinv1
      (fun c hc => hcalls c (List.mem_cons_of_mem _ hc))
    refine ⟨new1 ++ new2, ?_, ?_⟩
    · simp only [Server.run]
      rw [ht2, ht1, List.append_assoc]
    · rw [quietWhileStored_append, hq1, hs1, hq2]
      rfl

/-- C8, as amended: a registration of an absent identifier stores the
connection under it and then replies `OK` to the agent; and once
`registerAgent` has returned, whatever connections the broker handles next,
it neither reads nor writes the stored connection until a client claims it. -/
theorem registerAgent_stored_then_quiet (s : Server) (conn : BufferedConn) (id : List Char)
    (calls : List (Conn × NetIn)) (habs : s.agents id = none)
    (hfresh : ∀ k c, s.agents k = some c → c.conn ≠ conn.conn)
    (hcalls : ∀ call ∈ calls, call.1 ≠ conn.conn) :
    (s.registerAgent conn id).agents id = some conn ∧
      (∀ k, k ≠ id → (s.registerAgent conn id).agents k = s.agents k) ∧
      (s.registerAgent conn id).trace =
        s.trace ++ [Event.store id conn.conn, Event.write conn.conn "OK\n".toList] ∧
      quietWhileStored id conn.conn true
        (((s.registerAgent conn id).run calls).trace.drop
          (s.registerAgent conn id).trace.length) = true := by
  have hstored : (s.registerAgent conn id).agents id = some conn := by
    rw [registerAgent_absent s conn id habs]
    simp [Server.emit]
  refine ⟨hstored, ?_, ?_, ?_⟩
  · intro k hk
    rw [registerAgent_absent s conn id habs]
    simp [Server.emit, Function.update_noteq hk]
  · rw [registerAgent_absent s conn id habs]
    rfl
  · have hinv : ∀ k c, (s.registerAgent conn id).agents k = some c → c.conn = conn.conn →
        k = id ∧ c = conn := by
      intro k c hk hc
      rw [registerAgent_absent s conn id habs] at hk
      by_cases hkk : k = id
      · subst hkk
        simp only [Server.emit, Function.update_same, Option.some.injEq] at hk
        exact ⟨rfl, hk.symm⟩
      · simp only [Server.emit, Function.update_noteq hkk] at hk
        exact absurd hc (hfresh k c hk)
    obtain ⟨new, ht, hq⟩ := run_quiet conn id calls (s.registerAgent conn id) hinv hcalls
    rw [ht, List.drop_left]
    simpa [hstored] using hq

/-- C8, as amended, at a concrete broker: connection 2 registers `x1` with
an empty registry, then connections 3 to 6 are handled. -/
theorem registerAgent_stored_then_quiet_witness :
    New.agents "x1".toList = none ∧
      (∀ k c, New.agents k = some c → c.conn ≠ connTwo.conn) ∧
      (∀ call ∈ laterCalls, call.1 ≠ connTwo.conn) ∧
      (New.registerAgent connTwo "x1".toList).agents "x1".toList = some connTwo ∧
      (∀ k, k ≠ "x1".toList → (New.registerAgent connTwo "x1".toList).agents k = New.agents k) ∧
      (New.registerAgent connTwo "x1".toList).trace =
        New.trace ++ [Event.store "x1".toList connTwo.conn,
          Event.write connTwo.conn "OK\n".toList] ∧
      quietWhileStored "x1".toList connTwo.conn true
        (((New.registerAgent connTwo "x1".toList).run laterCalls).trace.drop
          (New.registerAgent connTwo "x1".toList).trace.length) = true :=
  ⟨by decide, (fun _ _ h => by simp [New] at h), by decide,
    registerAgent_stored_then_quiet New connTwo "x1".toList laterCalls (by decide)
      (fun _ _ h => by simp [New] at h) (by decide)⟩

/-- C8 as stated fails on the first registration of `x1`: the connection is
stored, and the `OK` reply is written to it after that moment, while it is
in the registry and before any client has claimed it. -/
theorem registerAgent_quiet_from_store_counterexample :
    New.agents "x1".toList = none ∧
      (New.registerAgent connTwo "x1".toList).trace =
        [Event.store "x1".toList 2, Event.write 2 "OK\n".toList] ∧
      quietWhileStored "x1".toList 2 false (New.registerAgent connTwo "x1".toList).trace =
        false := by
  decide

/-! ## The header and relay boundary -/

/-- C10: when the incoming bytes are a header line, a newline and `rest`,
in whatever segments they arrive, the header scan returns the line and leaves
`rest` split between its buffer and the network; the bytes returned by
successive `BufferedConn.Read` calls on the wrapped connection, followed by
what is still pending, are `rest` at every moment, they are all of `rest`
once enough reads are made, and a read that finds bytes in the buffer
returns buffered bytes only and reads nothing from the network; and it is
this wrapped connection that `handleConn` hands to `registerAgent` and to
`handleClient`. -/
theorem bufferedConn_reads_rest_exactly (raw : Conn) (inp : NetIn) (header rest : List Char)
    (hh : '\n' ∉ header) (hin : inp.chunks.flatten = header ++ '\n' :: rest) :
    ∃ r, (NewReader inp).ReadString '\n' = (header ++ ['\n'], none, r) ∧
      r.buf ++ r.rd.chunks.flatten = rest ∧
      (∀ ns, ((Wrap raw r).readMany ns).1 ++
        ((Wrap raw r).readMany ns).2.reader.pending = rest) ∧
      (∀ ns, (∀ n ∈ ns, 0 < n) → rest.length ≤ ns.length →
        ((Wrap raw r).readMany ns).1 = rest) ∧
      (∀ n, 0 < n → r.buf ≠ [] →
        (Wrap raw r).Read n =
          (r.buf.take n, none, Wrap raw { r with buf := r.buf.drop n })) ∧
      (∀ (s : Server) (p0 id : List Char),
        Fields (TrimSpace (header ++ ['\n'])) = [p0, id] → validNodeID id = true →
          (ToUpper p0 = "AGENT".toList →
            s.handleConn raw inp = (s.emit [Event.read raw]).registerAgent (Wrap raw r) id) ∧
          (ToUpper p0 = "CLIENT".toList →
            s.handleConn raw inp = (s.emit [Event.read raw]).handleClient (Wrap raw r) id)) := by
  obtain ⟨r, hR, hp, hwf⟩ := ReadString_line '\n' inp header rest hh hin
  refine ⟨r, hR, hp, ?_, ?_, ?_, ?_⟩
  · intro ns
    have := (readMany_spec ns (Wrap raw r) hwf).1
    rw [this]
    exact hp
  · intro ns hpos hlen
    have := (readMany_spec ns (Wrap raw r) hwf).2.2.2 hpos
      (by rw [show (Wrap raw r).reader.pending = rest from hp]; exact hlen)
    rw [this]
    exact hp
  · intro n hn hb
    simp [BufferedConn.Read, Wrap, readerRead_buffered hn hb]
  · intro s p0 id hf hid
    rw [handleConn_of_line s raw inp _ r hR, hf]
    simp only [MatchString_nodeID, hid, Bool.not_true, Bool.false_eq_true, if_false]
    refine ⟨fun ha => by rw [if_pos ha], fun hc => ?_⟩
    have ha : ¬ ToUpper p0 = "AGENT".toList := by rw [hc]; decide
    rw [if_neg ha, if_pos hc]

/-- C10 on a stream whose first segment carries the header `AGENT x1` and
the first four bytes of the payload. -/
theorem bufferedConn_reads_rest_exactly_witness :
    '\n' ∉ "AGENT x1".toList ∧
      headerAndPayload.chunks.flatten = "AGENT x1".toList ++ '\n' :: "SSH-2.0\r\n".toList ∧
      ∃ r, (NewReader headerAndPayload).ReadString '\n' =
          ("AGENT x1".toList ++ ['\n'], none, r) ∧
        r.buf ++ r.rd.chunks.flatten = "SSH-2.0\r\n".toList ∧
        (∀ ns, ((Wrap 1 r).readMany ns).1 ++ ((Wrap 1 r).readMany ns).2.reader.pending =
          "SSH-2.0\r\n".toList) ∧
        (∀ ns, (∀ n ∈ ns, 0 < n) → "SSH-2.0\r\n".toList.length ≤ ns.length →
          ((Wrap 1 r).readMany ns).1 = "SSH-2.0\r\n".toList) ∧
        (∀ n, 0 < n → r.buf ≠ [] →
          (Wrap 1 r).Read n = (r.buf.take n, none, Wrap 1 { r with buf := r.buf.drop n })) ∧
        (∀ (s : Server) (p0 id : List Char),
          Fields (TrimSpace ("AGENT x1".toList ++ ['\n'])) = [p0, id] → validNodeID id = true →
            (ToUpper p0 = "AGENT".toList →
              s.handleConn 1 headerAndPayload =
                (s.emit [Event.read 1]).registerAgent (Wrap 1 r) id) ∧
            (ToUpper p0 = "CLIENT".toList →
              s.handleConn 1 headerAndPayload =
                (s.emit [Event.read 1]).handleClient (Wrap 1 r) id)) :=
  ⟨by decide, by decide,
    bufferedConn_reads_rest_exactly 1 headerAndPayload "AGENT x1".toList "SSH-2.0\r\n".toList
      (by decide) (by decide)⟩

/-! ## The acknowledgement line on the client side -/

/-- What `proxy.Dial` does once a complete response line has been read. -/
theorem proxyDial_of_line (nodeID : List Char) (l : Link) (response : List Char) (r : Reader)
    (hw : l.writeOk = true)
    (hR : (NewReader l.inp).ReadString '\n' = (response, none, r)) :
    proxy.Dial nodeID (some l) =
      if HasPrefix (TrimSpace response) "ERROR:".toList then
        (Except.error (DialError.rejected (TrimSpace response)),
          [NetEvent.dial DialTarget.broker,
            NetEvent.write l.conn ("CLIENT ".toList ++ nodeID ++ "\n".toList),
            NetEvent.close l.conn])
      else
        (Except.ok (Wrap l.conn r),
          [NetEvent.dial DialTarget.broker,
            NetEvent.write l.conn ("CLIENT ".toList ++ nodeID ++ "\n".toList)]) := by
  simp only [proxy.Dial, hw, hR, Bool.not_true, Bool.false_eq_true, if_false]
  split_ifs <;> rfl

/-- C11: when the broker's response line is read whole, `proxy.Dial` fails
if and only if the line, trimmed of surrounding white space, starts with
`ERROR:`; then it returns the trimmed line as its error and has closed the
connection; on every other line it returns the connection wrapped with the
reader that read the line, not closed, and `proxy.Run` goes on to relay. -/
theorem proxyDial_fails_iff_error_line (nodeID : List Char) (l : Link)
    (line rest : List Char) (hw : l.writeOk = true) (hh : '\n' ∉ line)
    (hin : l.inp.chunks.flatten = line ++ '\n' :: rest) :
    ∃ r, (NewReader l.inp).ReadString '\n' = (line ++ ['\n'], none, r) ∧
      ((∃ e, (proxy.Dial nodeID (some l)).1 = Except.error e) ↔
        HasPrefix (TrimSpace (line ++ ['\n'])) "ERROR:".toList = true) ∧
      (HasPrefix (TrimSpace (line ++ ['\n'])) "ERROR:".toList = true →
        proxy.Dial nodeID (some l) =
          (Except.error (DialError.rejected (TrimSpace (line ++ ['\n']))),
            [NetEvent.dial DialTarget.broker,
              NetEvent.write l.conn ("CLIENT ".toList ++ nodeID ++ "\n".toList),
              NetEvent.close l.conn]) ∧
        (proxy.Run nodeID (some l)).1 =
          some (DialError.rejected (TrimSpace (line ++ ['\n'])))) ∧
      (HasPrefix (TrimSpace (line ++ ['\n'])) "ERROR:".toList = false →
        proxy.Dial nodeID (some l) =
          (Except.ok (Wrap l.conn r),
            [NetEvent.dial DialTarget.broker,
              NetEvent.write l.conn ("CLIENT ".toList ++ nodeID ++ "\n".toList)]) ∧
        proxy.Run nodeID (some l) =
          (none,
            [NetEvent.dial DialTarget.broker,
              NetEvent.write l.conn ("CLIENT ".toList ++ nodeID ++ "\n".toList),
              NetEvent.relayStd l.conn, NetEvent.close l.conn])) := by
  obtain ⟨r, hR, _, _⟩ := ReadString_line '\n' l.inp line rest hh hin
  have hD := proxyDial_of_line nodeID l _ r hw hR
  refine ⟨r, hR, ?_, ?_, ?_⟩
  · cases hp : HasPrefix (TrimSpace (line ++ ['\n'])) "ERROR:".toList with
    | true =>
      rw [hD, hp]
      simp
    | false =>
      rw [hD, hp]
      simp
  · intro hp
    rw [hp] at hD
    simp only [if_true] at hD
    exact ⟨hD, by simp [proxy.Run, hD]⟩
  · intro hp
    rw [hp] at hD
    simp only [Bool.false_eq_true, if_false] at hD
    exact ⟨hD, by simp [proxy.Run, hD, Wrap]⟩

/-- C11 on the response `ERROR: agent offline`. -/
theorem proxyDial_fails_iff_error_line_witness :
    (linkAnswering "ERROR: agent offline\n").writeOk = true ∧
      '\n' ∉ "ERROR: agent offline".toList ∧
      (linkAnswering "ERROR: agent offline\n").inp.chunks.flatten =
        "ERROR: agent offline".toList ++ '\n' :: [] ∧
      HasPrefix (TrimSpace ("ERROR: agent offline".toList ++ ['\n'])) "ERROR:".toList = true ∧
      (proxy.Dial "x1".toList (some (linkAnswering "ERROR: agent offline\n"))).1 =
        Except.error (DialError.rejected "ERROR: agent offline".toList) ∧
      ∃ r, (NewReader (linkAnswering "ERROR: agent offline\n").inp).ReadString '\n' =
          ("ERROR: agent offline".toList ++ ['\n'], none, r) ∧
        ((∃ e, (proxy.Dial "x1".toList (some (linkAnswering "ERROR: agent offline\n"))).1 =
            Except.error e) ↔
          HasPrefix (TrimSpace ("ERROR: agent offline".toList ++ ['\n'])) "ERROR:".toList =
            true) :=
  have h := proxyDial_fails_iff_error_line "x1".toList (linkAnswering "ERROR: agent offline\n")
    "ERROR: agent offline".toList [] (by decide) (by decide) (by decide)
  ⟨by decide, by decide, by decide, by decide, rfl,
    h.elim fun r hr => ⟨r, hr.1, hr.2.1⟩⟩

/-- Every line the broker writes is `OK` or one of its error lines. -/
theorem handleConn_writes_known (s : Server) (raw : Conn) (inp : NetIn) (c : Conn)
    (data : List Char)
    (h : Event.write c data ∈ (s.handleConn raw inp).trace.drop s.trace.length) :
    data = "OK\n".toList ∨ data ∈ brokerErrors := by
  obtain ⟨line, e, r, hR⟩ : ∃ line e r, (NewReader inp).ReadString '\n' = (line, e, r) :=
    ⟨_, _, _, rfl⟩
  have key : ∀ tail : List Event,
      (s.handleConn raw inp).trace = (s.emit [Event.read raw]).trace ++ tail →
      (∀ d, Event.write c d ∈ tail → d = "OK\n".toList ∨ d ∈ brokerErrors) →
      data = "OK\n".toList ∨ data ∈ brokerErrors := by
    intro tail ht hall
    rw [ht, emit_trace, List.append_assoc, List.drop_left] at h
    simp only [List.singleton_append, List.mem_cons, reduceCtorEq, false_or] at h
    exact hall data h
  cases e with
  | some x =>
    refine key [Event.close raw] ?_ ?_
    · simp only [Server.handleConn, hR]; rfl
    · intro d hd; simp at hd
  | none =>
    have herr : ∀ msg, msg ∈ brokerErrors →
        (s.handleConn raw inp).trace =
          ((s.emit [Event.read raw]).emit [Event.write raw msg, Event.close raw]).trace →
        data = "OK\n".toList ∨ data ∈ brokerErrors := by
      intro msg hmsg ht
      refine key [Event.write raw msg, Event.close raw] ht ?_
      intro d hd
      simp only [List.mem_cons, Event.write.injEq, reduceCtorEq, List.mem_singleton,
        List.not_mem_nil, or_false] at hd
      rw [hd.2]
      exact Or.inr hmsg
    have hS := handleConn_of_line s raw inp line r hR
    split at hS
    · rename_i p0 nodeID _
      split_ifs at hS
      · exact herr "ERROR: invalid node-id\n".toList (by decide) (by rw [hS])
      · rcases registerAgent_trace_cases (s.emit [Event.read raw]) (Wrap raw r) nodeID with
          h1 | h1
        · refine key _ (by rw [hS, h1]) ?_
          intro d hd
          simp only [List.mem_cons, Event.write.injEq, reduceCtorEq, List.mem_singleton,
            List.not_mem_nil, or_false] at hd
          rw [hd.2]
          exact Or.inr (by decide)
        · refine key _ (by rw [hS, h1]) ?_
          intro d hd
          simp only [List.mem_cons, Event.write.injEq, reduceCtorEq, List.mem_singleton,
            List.not_mem_nil, or_false, false_or] at hd
          exact Or.inl hd.2
      · rcases handleClient_trace_cases (s.emit [Event.read raw]) (Wrap raw r) nodeID with
          h1 | ⟨c1, h1⟩
        · refine key _ (by rw [hS, h1]) ?_
          intro d hd
          simp only [List.mem_cons, Event.write.injEq, reduceCtorEq, List.mem_singleton,
            List.not_mem_nil, or_false] at hd
          rw [hd.2]
          exact Or.inr (by decide)
        · refine key _ (by rw [hS, h1]) ?_
          intro d hd
          simp only [List.mem_cons, Event.write.injEq, reduceCtorEq, List.mem_singleton,
            List.not_mem_nil, or_false, false_or] at hd
          exact Or.inl hd.2
      · exact herr "ERROR: unknown type\n".toList (by decide) (by rw [hS])
    · exact herr "ERROR: invalid header\n".toList (by decide) (by rw [hS])

/-- What `agent.runOnce` does once a complete response line has been read. -/
theorem runOnce_of_line (opts : AgentOptions) (l : Link) (ssh : Option Conn)
    (response : List Char) (r : Reader) (hw : l.writeOk = true)
    (hR : (NewReader l.inp).ReadString '\n' = (response, none, r)) :
    agent.runOnce opts (some l) ssh =
      if TrimSpace response ≠ "OK".toList then
        (some (AgentError.registrationFailed (TrimSpace response)),
          [NetEvent.dial DialTarget.broker,
            NetEvent.write l.conn ("AGENT ".toList ++ opts.NodeID ++ "\n".toList),
            NetEvent.close l.conn])
      else
        match ssh with
        | none =>
          (some AgentError.connectSSH,
            [NetEvent.dial DialTarget.broker,
              NetEvent.write l.conn ("AGENT ".toList ++ opts.NodeID ++ "\n".toList),
              NetEvent.dial (DialTarget.loopback opts.SSHPort), NetEvent.close l.conn])
        | some sshConn =>
          (none,
            [NetEvent.dial DialTarget.broker,
              NetEvent.write l.conn ("AGENT ".toList ++ opts.NodeID ++ "\n".toList),
              NetEvent.dial (DialTarget.loopback opts.SSHPort),
              NetEvent.pipe l.conn sshConn, NetEvent.close sshConn, NetEvent.close l.conn]) := by
  simp only [agent.runOnce, hw, hR, Bool.not_true, Bool.false_eq_true, if_false]
  split_ifs
  · rfl
  · cases ssh <;> rfl

/-- Every attempt of the agent starts by dialing the rendezvous server. -/
theorem runOnce_starts_with_dial (opts : AgentOptions) (server : Option Link)
    (ssh : Option Conn) :
    (agent.runOnce opts server ssh).2.head? = some (NetEvent.dial DialTarget.broker) := by
  unfold agent.runOnce
  cases server with
  | none => rfl
  | some l =>
    simp only
    split_ifs
    · rfl
    · split
      · rfl
      · split_ifs
        · rfl
        · cases ssh <;> rfl

/-- C12: when the acknowledgement line is read whole, `runOnce` dials the
local service if and only if the line, trimmed of surrounding white space,
is exactly `OK`; on every other line it returns the registration error
without dialing the local service, and `Run` then sleeps 2 seconds and
starts the next attempt, which dials the rendezvous server again. Every
error line the broker writes is such a line. -/
theorem agent_runOnce_ack_rule (opts : AgentOptions) (l : Link) (ssh : Option Conn)
    (line rest : List Char) (env2 : Option Link × Option Conn)
    (more : List (Option Link × Option Conn)) (hw : l.writeOk = true) (hh : '\n' ∉ line)
    (hin : l.inp.chunks.flatten = line ++ '\n' :: rest) :
    (NetEvent.dial (DialTarget.loopback opts.SSHPort) ∈ (agent.runOnce opts (some l) ssh).2 ↔
        TrimSpace (line ++ ['\n']) = "OK".toList) ∧
      (TrimSpace (line ++ ['\n']) ≠ "OK".toList →
        agent.runOnce opts (some l) ssh =
          (some (AgentError.registrationFailed (TrimSpace (line ++ ['\n']))),
            [NetEvent.dial DialTarget.broker,
              NetEvent.write l.conn ("AGENT ".toList ++ opts.NodeID ++ "\n".toList),
              NetEvent.close l.conn]) ∧
        agent.Run opts ((some l, ssh) :: env2 :: more) =
          [NetEvent.dial DialTarget.broker,
            NetEvent.write l.conn ("AGENT ".toList ++ opts.NodeID ++ "\n".toList),
            NetEvent.close l.conn, NetEvent.sleep 2] ++
            ((agent.runOnce opts env2.1 env2.2).2 ++ NetEvent.sleep 2 :: agent.Run opts more) ∧
        (agent.runOnce opts env2.1 env2.2).2.head? = some (NetEvent.dial DialTarget.broker)) ∧
      (∀ msg ∈ brokerErrors, TrimSpace msg ≠ "OK".toList) ∧
      (∀ (s : Server) (raw : Conn) (inp : NetIn) (c : Conn) (data : List Char),
        Event.write c data ∈ (s.handleConn raw inp).trace.drop s.trace.length →
          data = "OK\n".toList ∨ data ∈ brokerErrors) := by
  obtain ⟨r, hR, _, _⟩ := ReadString_line '\n' l.inp line rest hh hin
  have hO := runOnce_of_line opts l ssh _ r hw hR
  refine ⟨?_, ?_, by decide, handleConn_writes_known⟩
  · by_cases hok : TrimSpace (line ++ ['\n']) = "OK".toList
    · rw [hO, if_neg (not_not.mpr hok)]
      refine iff_of_true ?_ hok
      cases ssh <;> simp
    · rw [hO, if_pos hok]
      refine iff_of_false ?_ hok
      simp
  · intro hne
    rw [if_pos hne] at hO
    refine ⟨hO, ?_, runOnce_starts_with_dial opts env2.1 env2.2⟩
    simp [agent.Run, hO]

/-- C12 on the response `ERROR: node-id already registered`, followed by a
second attempt that is answered `OK`. -/
theorem agent_runOnce_ack_rule_witness :
    (linkAnswering "ERROR: node-id already registered\n").writeOk = true ∧
      '\n' ∉ "ERROR: node-id already registered".toList ∧
      (linkAnswering "ERROR: node-id already registered\n").inp.chunks.flatten =
        "ERROR: node-id already registered".toList ++ '\n' :: [] ∧
      TrimSpace ("ERROR: node-id already registered".toList ++ ['\n']) ≠ "OK".toList ∧
      (NetEvent.dial (DialTarget.loopback agentX1.SSHPort) ∈
          (agent.runOnce agentX1 (some (linkAnswering "ERROR: node-id already registered\n"))
            (some 8)).2 ↔
        TrimSpace ("ERROR: node-id already registered".toList ++ ['\n']) = "OK".toList) ∧
      agent.Run agentX1
          [(some (linkAnswering "ERROR: node-id already registered\n"), some 8),
            (some (linkAnswering "OK\n"), some 8)] =
        [NetEvent.dial DialTarget.broker, NetEvent.write 7 "AGENT x1\n".toList,
          NetEvent.close 7, NetEvent.sleep 2, NetEvent.dial DialTarget.broker,
          NetEvent.write 7 "AGENT x1\n".toList, NetEvent.dial (DialTarget.loopback 22),
          NetEvent.pipe 7 8, NetEvent.close 8, NetEvent.close 7, NetEvent.sleep 2] :=
  have h := agent_runOnce_ack_rule agentX1 (linkAnswering "ERROR: node-id already registered\n")
    (some 8) "ERROR: node-id already registered".toList [] (some (linkAnswering "OK\n"), some 8)
    [] (by decide) (by decide) (by decide)
  ⟨by decide, by decide, by decide, by decide, h.1, by decide⟩

/-! ## The sanitised node-id -/

theorem sanitizePattern_mem (c : Char) :
    nodeIDSanitizePattern.cls.mem c = !nodeIDPattern.cls.mem c := by
  simp [CharClass.mem, nodeIDSanitizePattern, nodeIDPattern]

theorem replaceRuns_all_class :
    ∀ (s : List Char) (inRun : Bool),
      ∀ c ∈ replaceRuns nodeIDSanitizePattern.cls "-".toList inRun s,
        nodeIDPattern.cls.mem c = true := by
  intro s
  induction s with
  | nil => intro inRun c hc; simp [replaceRuns] at hc
  | cons x xs ih =>
    intro inRun c hc
    unfold replaceRuns at hc
    by_cases hx : nodeIDSanitizePattern.cls.mem x = true
    · rw [if_pos hx] at hc
      cases inRun with
      | true =>
        simp only [if_true] at hc
        exact ih true c hc
      | false =>
        simp only [Bool.false_eq_true, if_false, List.mem_append] at hc
        rcases hc with hc | hc
        · have : c = '-' := by simpa using hc
          rw [this]
          decide
        · exact ih true c hc
    · rw [if_neg hx] at hc
      simp only [List.mem_cons] at hc
      rcases hc with rfl | hc
      · rw [sanitizePattern_mem] at hx
        simpa using hx
      · exact ih false c hc

theorem replaceRuns_of_all_class :
    ∀ (s : List Char) (inRun : Bool), (∀ c ∈ s, nodeIDPattern.cls.mem c = true) →
      replaceRuns nodeIDSanitizePattern.cls "-".toList inRun s = s := by
  intro s
  induction s with
  | nil => intro inRun _; rfl
  | cons x xs ih =>
    intro inRun h
    have hx : ¬ nodeIDSanitizePattern.cls.mem x = true := by
      rw [sanitizePattern_mem, h x (List.mem_cons_self _ _)]
      simp
    unfold replaceRuns
    rw [if_neg hx, ih false (fun c hc => h c (List.mem_cons_of_mem _ hc))]

theorem dropWhile_head_not (q : Char → Bool) (s : List Char) (c : Char)
    (h : (s.dropWhile q).head? = some c) : q c = false := by
  induction s with
  | nil => simp at h
  | cons x xs ih =>
    by_cases hx : q x = true
    · rw [List.dropWhile_cons_of_pos hx] at h
      exact ih h
    · rw [List.dropWhile_cons_of_neg hx] at h
      simp only [List.head?_cons, Option.some.injEq] at h
      rw [← h]
      simpa using hx

theorem dropWhile_of_head_not (q : Char → Bool) (s : List Char)
    (h : ∀ c, s.head? = some c → q c = false) : s.dropWhile q = s := by
  cases s with
  | nil => rfl
  | cons x xs =>
    have hx : ¬ q x = true := by simp [h x rfl]
    rw [List.dropWhile_cons_of_neg hx]

theorem rdropWhile_facts (q : Char → Bool) :
    ∀ s : List Char,
      (∀ c, (s.rdropWhile q).head? = some c → s.head? = some c) ∧
      (∀ c, (s.rdropWhile q).getLast? = some c → q c = false) ∧
      (∀ c, c ∈ s.rdropWhile q → c ∈ s) ∧
      ((∀ c, s.getLast? = some c → q c = false) → s.rdropWhile q = s) := by
  intro s
  induction s using List.reverseRecOn with
  | nil => simp
  | append_singleton l x ih =>
    by_cases hx : q x = true
    · rw [List.rdropWhile_concat_pos _ _ _ hx]
      refine ⟨?_, ih.2.1, ?_, ?_⟩
      · intro c hc
        have := ih.1 c hc
        cases l with
        | nil => simp at this
        | cons y ys => simpa using this
      · intro c hc
        exact List.mem_append_left _ (ih.2.2.1 c hc)
      · intro h
        have := h x (by simp)
        rw [hx] at this
        cases this
    · rw [List.rdropWhile_concat_neg _ _ _ hx]
      refine ⟨fun c hc => hc, ?_, fun c hc => hc, fun _ => rfl⟩
      intro c hc
      simp only [List.getLast?_append, List.getLast?_singleton, Option.or_some,
        Option.some.injEq] at hc
      rw [← hc]
      simpa using hx

theorem Trim_facts (s : List Char) :
    (Trim s "-".toList).head? ≠ some '-' ∧ (Trim s "-".toList).getLast? ≠ some '-' ∧
      (∀ c ∈ Trim s "-".toList, c ∈ s) ∧
      (s.head? ≠ some '-' → s.getLast? ≠ some '-' → Trim s "-".toList = s) := by
  have hq : ∀ c : Char, (fun c => "-".toList.contains c) c = false → c ≠ '-' := by
    intro c hc
    simpa using hc
  have hq2 : ∀ c : Char, c ≠ '-' → (fun c => "-".toList.contains c) c = false := by
    intro c hc
    simpa using hc
  obtain ⟨r1, r2, r3, _⟩ :=
    rdropWhile_facts (fun c => "-".toList.contains c)
      (s.dropWhile fun c => "-".toList.contains c)
  refine ⟨?_, ?_, ?_, ?_⟩
  · intro h
    exact hq _ (dropWhile_head_not _ s '-' (r1 '-' h)) rfl
  · intro h
    exact hq _ (r2 '-' h) rfl
  · intro c hc
    exact List.dropWhile_subset _ (r3 c hc)
  · intro h1 h2
    have hd : (s.dropWhile fun c => "-".toList.contains c) = s :=
      dropWhile_of_head_not _ s (fun c hc => hq2 c (fun hcc => h1 (by rw [hc, hcc])))
    unfold Trim
    rw [hd]
    exact (rdropWhile_facts (fun c => "-".toList.contains c) s).2.2.2
      (fun c hc => hq2 c (fun hcc => h2 (by rw [hc, hcc])))

theorem sanitizeNodeID_all_class (v : List Char) :
    ∀ c ∈ sanitizeNodeID v, nodeIDPattern.cls.mem c = true := by
  intro c hc
  have h1 := (Trim_facts _).2.2.1 c hc
  exact replaceRuns_all_class v false c h1

theorem sanitizeNodeID_of_valid (v : List Char) (hall : ∀ c ∈ v, nodeIDPattern.cls.mem c = true)
    (hhead : v.head? ≠ some '-') (hlast : v.getLast? ≠ some '-') : sanitizeNodeID v = v := by
  have hr : nodeIDSanitizePattern.ReplaceAllString v "-".toList = v :=
    replaceRuns_of_all_class v false hall
  unfold sanitizeNodeID
  rw [hr]
  exact (Trim_facts v).2.2.2 hhead hlast

/-- C14: for every string, `sanitizeNodeID` gives the empty string, which
`runAgent` refuses, or a string that matches the broker's node-id pattern
and neither starts nor ends with `-`; applying it twice is applying it
once; and a string that matches the pattern and has no `-` at either end
is left as it is. -/
theorem sanitizeNodeID_accepted_by_broker (v : List Char) :
    (sanitizeNodeID v = [] ∨
        (nodeIDPattern.MatchString (sanitizeNodeID v) = true ∧
          (sanitizeNodeID v).head? ≠ some '-' ∧ (sanitizeNodeID v).getLast? ≠ some '-')) ∧
      sanitizeNodeID (sanitizeNodeID v) = sanitizeNodeID v ∧
      (nodeIDPattern.MatchString v = true → v.head? ≠ some '-' → v.getLast? ≠ some '-' →
        sanitizeNodeID v = v) ∧
      (v ≠ [] → ∀ detected,
        (runAgentNodeID v detected = none ↔ sanitizeNodeID v = []) ∧
          ∀ id, runAgentNodeID v detected = some id →
            id = sanitizeNodeID v ∧ nodeIDPattern.MatchString id = true) := by
  have hall := sanitizeNodeID_all_class v
  have hT := Trim_facts (nodeIDSanitizePattern.ReplaceAllString v "-".toList)
  have hmatch : sanitizeNodeID v ≠ [] → nodeIDPattern.MatchString (sanitizeNodeID v) = true := by
    intro hne
    simp only [Regexp.MatchString, nodeIDPattern, Bool.and_eq_true, Bool.not_eq_true',
      List.isEmpty_eq_false, ne_eq, List.all_eq_true]
    exact ⟨hne, hall⟩
  refine ⟨?_, ?_, ?_, ?_⟩
  · by_cases hne : sanitizeNodeID v = []
    · exact Or.inl hne
    · exact Or.inr ⟨hmatch hne, hT.1, hT.2.1⟩
  · exact sanitizeNodeID_of_valid _ hall hT.1 hT.2.1
  · intro hm hhead hlast
    refine sanitizeNodeID_of_valid v ?_ hhead hlast
    simp only [Regexp.MatchString, nodeIDPattern, Bool.and_eq_true, List.all_eq_true] at hm
    exact hm.2
  · intro hv detected
    by_cases hne : sanitizeNodeID v = []
    · simp [runAgentNodeID, hv, hne]
    · simp only [runAgentNodeID, hv, hne, if_false, reduceCtorEq, false_iff, not_false_eq_true,
        Option.some.injEq, true_and]
      intro id hid
      rw [← hid]
      exact ⟨rfl, hmatch hne⟩

/-- C14 on `my host!!name-`, which is sanitised to `my-host-name`, and on
`my-host-name`, which is left as it is. -/
theorem sanitizeNodeID_accepted_by_broker_witness :
    sanitizeNodeID "my host!!name-".toList = "my-host-name".toList ∧
      nodeIDPattern.MatchString "my-host-name".toList = true ∧
      "my-host-name".toList.head? ≠ some '-' ∧ "my-host-name".toList.getLast? ≠ some '-' ∧
      sanitizeNodeID "my-host-name".toList = "my-host-name".toList ∧
      sanitizeNodeID (sanitizeNodeID "my host!!name-".toList) =
        sanitizeNodeID "my host!!name-".toList :=
  ⟨by decide, by decide, by decide, by decide,
    (sanitizeNodeID_accepted_by_broker "my-host-name".toList).2.2.1 (by decide) (by decide)
      (by decide),
    (sanitizeNodeID_accepted_by_broker "my host!!name-".toList).2.1⟩

/-! ## The shutdown discipline of `Pipe` -/

theorem actionsOf_append (s : PipeState) (g h : Goroutine) (acts : List PipeAction)
    (tr : List PipeEvent)
    (htr : tr = s.trace ++ acts.map fun act => { who := h, act := act }) :
    ((tr.filter fun e => e.who == g).map PipeEvent.act) =
      s.actionsOf g ++ if h = g then acts else [] := by
  subst htr
  unfold PipeState.actionsOf
  rw [List.filter_append, List.map_append]
  congr 1
  by_cases hg : h = g
  · subst hg
    rw [if_pos rfl]
    induction acts with
    | nil => rfl
    | cons x xs ih => simp [List.filter_cons, ih]
  · rw [if_neg hg]
    induction acts with
    | nil => rfl
    | cons x xs ih => simp [List.filter_cons, hg, ih]

theorem behind_next (dst src : Peer) (st : CopyState) :
    st.next.behind dst src = st.behind dst src ++ st.emits dst src := by
  cases st <;> rfl

theorem control_copyAB (wg : Nat) (c : CallerState) (ab ba : CopyState)
    (h : Pipe.control wg c ab ba) :
    Pipe.control (if ab = CopyState.shutDown then wg - 1 else wg) c ab.next ba := by
  cases c <;> cases ab <;>
    simp_all [Pipe.control, CopyState.next, CopyState.undone]

theorem control_copyBA (wg : Nat) (c : CallerState) (ab ba : CopyState)
    (h : Pipe.control wg c ab ba) :
    Pipe.control (if ba = CopyState.shutDown then wg - 1 else wg) c ab ba.next := by
  cases c <;> cases ba <;>
    simp_all [Pipe.control, CopyState.next, CopyState.undone]

theorem control_caller_quiet (a b : Peer) (wg : Nat) (c : CallerState) (ab ba : CopyState)
    (h : Pipe.control wg c ab ba)
    (hmove : ab = CopyState.copying ∨ ab = CopyState.copied ∨ ba = CopyState.copying ∨
      ba = CopyState.copied) :
    c.behind a b = [] := by
  cases c <;> simp_all [Pipe.control, CallerState.behind]

theorem emits_nonempty (dst src : Peer) (st : CopyState) (h : st.emits dst src ≠ []) :
    st = CopyState.copying ∨ st = CopyState.copied := by
  cases st <;> simp_all [CopyState.emits]

/-- Appending actions of a `copy` goroutine keeps the actions of the caller
last, as long as the caller has done nothing yet when there is one. -/
theorem order_after_copy (s : PipeState) (g : Goroutine) (hg : g ≠ Goroutine.caller)
    (acts : List PipeAction)
    (hord : s.trace = (s.trace.filter fun e => e.who != Goroutine.caller) ++
      (s.trace.filter fun e => e.who == Goroutine.caller))
    (hquiet : acts ≠ [] → s.actionsOf Goroutine.caller = []) :
    (s.trace ++ acts.map fun act => ({ who := g, act := act } : PipeEvent)) =
      ((s.trace ++ acts.map fun act => ({ who := g, act := act } : PipeEvent)).filter
          fun e => e.who != Goroutine.caller) ++
        ((s.trace ++ acts.map fun act => ({ who := g, act := act } : PipeEvent)).filter
          fun e => e.who == Goroutine.caller) := by
  have h1 : ((acts.map fun act => ({ who := g, act := act } : PipeEvent)).filter
      fun e => e.who != Goroutine.caller) =
      acts.map fun act => ({ who := g, act := act } : PipeEvent) := by
    induction acts with
    | nil => rfl
    | cons x xs ih => simp [List.filter_cons, hg]
  have h2 : ((acts.map fun act => ({ who := g, act := act } : PipeEvent)).filter
      fun e => e.who == Goroutine.caller) = [] := by
    induction acts with
    | nil => rfl
    | cons x xs ih => simp [List.filter_cons, hg]
  rw [List.filter_append, List.filter_append, h1, h2, List.append_nil]
  by_cases ha : acts = []
  · subst ha
    simpa using hord
  · have hq := hquiet ha
    unfold PipeState.actionsOf at hq
    rw [List.map_eq_nil_iff] at hq
    rw [hq, List.append_nil] at hord
    rw [hq, List.append_nil, ← hord]

theorem order_after_caller (s : PipeState) (act : PipeAction)
    (hord : s.trace = (s.trace.filter fun e => e.who != Goroutine.caller) ++
      (s.trace.filter fun e => e.who == Goroutine.caller)) :
    s.trace ++ [({ who := Goroutine.caller, act := act } : PipeEvent)] =
      ((s.trace ++ [({ who := Goroutine.caller, act := act } : PipeEvent)]).filter
          fun e => e.who != Goroutine.caller) ++
        ((s.trace ++ [({ who := Goroutine.caller, act := act } : PipeEvent)]).filter
          fun e => e.who == Goroutine.caller) := by
  rw [List.filter_append, List.filter_append]
  simp only [List.filter_cons, List.filter_nil, bne_self_eq_false, Bool.false_eq_true, if_false,
    beq_self_eq_true, if_true, List.append_nil]
  rw [← List.append_assoc, ← hord]

theorem step_copyAB (a b : Peer) (s : PipeState) :
    Pipe.step a b s Goroutine.copyAB =
      { s with ab := s.ab.next
               wg := if s.ab = CopyState.shutDown then s.wg - 1 else s.wg
               trace := s.trace ++ (s.ab.emits a b).map fun act =>
                 { who := Goroutine.copyAB, act := act } } := rfl

theorem step_copyBA (a b : Peer) (s : PipeState) :
    Pipe.step a b s Goroutine.copyBA =
      { s with ba := s.ba.next
               wg := if s.ba = CopyState.shutDown then s.wg - 1 else s.wg
               trace := s.trace ++ (s.ba.emits b a).map fun act =>
                 { who := Goroutine.copyBA, act := act } } := rfl

theorem undone_zero (x y : CopyState) (h : x.undone + y.undone = 0) :
    x = CopyState.done ∧ y = CopyState.done := by
  cases x <;> cases y <;> simp_all [CopyState.undone]

theorem inv_init (a b : Peer) : Pipe.Inv a b Pipe.init := by
  refine ⟨rfl, rfl, rfl, rfl, ?_⟩
  simp [Pipe.control, Pipe.init]

theorem inv_step_copyAB (a b : Peer) (s : PipeState) (h : Pipe.Inv a b s) :
    Pipe.Inv a b (Pipe.step a b s Goroutine.copyAB) := by
  obtain ⟨h1, h2, h3, h4, h5⟩ := h
  rw [step_copyAB]
  refine ⟨?_, ?_, ?_, ?_, control_copyAB _ _ _ _ h5⟩
  · show ((_ : List PipeEvent).filter _).map _ = _
    rw [actionsOf_append s Goroutine.copyAB Goroutine.copyAB (s.ab.emits a b) _ rfl, if_pos rfl,
      h1, behind_next]
  · show ((_ : List PipeEvent).filter _).map _ = _
    rw [actionsOf_append s Goroutine.copyBA Goroutine.copyAB (s.ab.emits a b) _ rfl,
      if_neg (by decide), h2, List.append_nil]
  · show ((_ : List PipeEvent).filter _).map _ = _
    rw [actionsOf_append s Goroutine.caller Goroutine.copyAB (s.ab.emits a b) _ rfl,
      if_neg (by decide), h3, List.append_nil]
  · refine order_after_copy s Goroutine.copyAB (by decide) _ h4 ?_
    intro hne
    rw [h3]
    rcases emits_nonempty a b s.ab hne with hc | hc
    · exact control_caller_quiet a b _ _ _ _ h5 (Or.inl hc)
    · exact control_caller_quiet a b _ _ _ _ h5 (Or.inr (Or.inl hc))

theorem inv_step_copyBA (a b : Peer) (s : PipeState) (h : Pipe.Inv a b s) :
    Pipe.Inv a b (Pipe.step a b s Goroutine.copyBA) := by
  obtain ⟨h1, h2, h3, h4, h5⟩ := h
  rw [step_copyBA]
  refine ⟨?_, ?_, ?_, ?_, control_copyBA _ _ _ _ h5⟩
  · show ((_ : List PipeEvent).filter _).map _ = _
    rw [actionsOf_append s Goroutine.copyAB Goroutine.copyBA (s.ba.emits b a) _ rfl,
      if_neg (by decide), h1, List.append_nil]
  · show ((_ : List PipeEvent).filter _).map _ = _
    rw [actionsOf_append s Goroutine.copyBA Goroutine.copyBA (s.ba.emits b a) _ rfl, if_pos rfl,
      h2, behind_next]
  · show ((_ : List PipeEvent).filter _).map _ = _
    rw [actionsOf_append s Goroutine.caller Goroutine.copyBA (s.ba.emits b a) _ rfl,
      if_neg (by decide), h3, List.append_nil]
  · refine order_after_copy s Goroutine.copyBA (by decide) _ h4 ?_
    intro hne
    rw [h3]
    rcases emits_nonempty b a s.ba hne with hc | hc
    · exact control_caller_quiet a b _ _ _ _ h5 (Or.inr (Or.inr (Or.inl hc)))
    · exact control_caller_quiet a b _ _ _ _ h5 (Or.inr (Or.inr (Or.inr hc)))

theorem inv_step_caller (a b : Peer) (s : PipeState) (h : Pipe.Inv a b s) :
    Pipe.Inv a b (Pipe.step a b s Goroutine.caller) := by
  obtain ⟨h1, h2, h3, h4, h5⟩ := h
  unfold PipeState.actionsOf at h1 h2 h3
  cases hc : s.caller with
  | start =>
    rw [hc] at h3 h5
    simp only [Pipe.control] at h5
    simp only [Pipe.step, hc]
    exact ⟨h1, h2, h3, h4, by simp [Pipe.control, h5]⟩
  | added =>
    rw [hc] at h3 h5
    simp only [Pipe.control] at h5
    simp only [Pipe.step, hc]
    refine ⟨?_, h2, h3, h4, by simp [Pipe.control, h5, CopyState.undone]⟩
    unfold PipeState.actionsOf
    simp only
    rw [h1, h5.2.1]
    rfl
  | spawnedOne =>
    rw [hc] at h3 h5
    simp only [Pipe.control] at h5
    simp only [Pipe.step, hc]
    refine ⟨h1, ?_, h3, h4, by simp [Pipe.control, h5, CopyState.undone]⟩
    unfold PipeState.actionsOf
    simp only
    rw [h2, h5.2.2]
    rfl
  | waiting =>
    rw [hc] at h3 h5
    simp only [Pipe.step, hc]
    by_cases hw : s.wg = 0
    · rw [if_pos hw]
      refine ⟨h1, h2, h3, h4, ?_⟩
      simp only [Pipe.control] at h5 ⊢
      obtain ⟨k1, k2, k3⟩ := h5
      rw [hw] at k1
      obtain ⟨e1, e2⟩ := undone_zero s.ab s.ba k1.symm
      exact ⟨hw, e1, e2⟩
    · rw [if_neg hw]
      refine ⟨h1, h2, ?_, h4, ?_⟩
      · unfold PipeState.actionsOf
        rw [h3, hc]
      · rw [hc]
        exact h5
  | woke =>
    rw [hc] at h3 h5
    simp only [Pipe.step, hc]
    refine ⟨?_, ?_, ?_, order_after_caller s _ h4, h5⟩
    · unfold PipeState.actionsOf
      simp only [List.filter_append, List.map_append, h1]
      simp [List.filter_cons]
    · unfold PipeState.actionsOf
      simp only [List.filter_append, List.map_append, h2]
      simp [List.filter_cons]
    · unfold PipeState.actionsOf
      simp only [List.filter_append, List.map_append, h3]
      simp [List.filter_cons, CallerState.behind]
  | closedA =>
    rw [hc] at h3 h5
    simp only [Pipe.step, hc]
    refine ⟨?_, ?_, ?_, order_after_caller s _ h4, h5⟩
    · unfold PipeState.actionsOf
      simp only [List.filter_append, List.map_append, h1]
      simp [List.filter_cons]
    · unfold PipeState.actionsOf
      simp only [List.filter_append, List.map_append, h2]
      simp [List.filter_cons]
    · unfold PipeState.actionsOf
      simp only [List.filter_append, List.map_append, h3]
      simp [List.filter_cons, CallerState.behind]
  | returned =>
    rw [hc] at h3 h5
    simp only [Pipe.step, hc]
    refine ⟨h1, h2, ?_, h4, ?_⟩
    · unfold PipeState.actionsOf
      rw [h3, hc]
    · rw [hc]
      exact h5

/-- Every state `Pipe(a, b)` reaches, under any schedule, satisfies the
invariant. -/
theorem inv_run (a b : Peer) (sched : List Goroutine) : Pipe.Inv a b (Pipe.run a b sched) := by
  unfold Pipe.run
  induction sched using List.reverseRecOn with
  | nil => exact inv_init a b
  | append_singleton l g ih =>
    rw [List.foldl_append]
    simp only [List.foldl_cons, List.foldl_nil]
    cases g with
    | caller => exact inv_step_caller a b _ ih
    | copyAB => exact inv_step_copyAB a b _ ih
    | copyBA => exact inv_step_copyBA a b _ ih

theorem filter_copy_of_not_caller (tr : List PipeEvent) (g : Goroutine)
    (hg : g ≠ Goroutine.caller) :
    ((tr.filter fun e => e.who != Goroutine.caller).filter fun e => e.who == g) =
      tr.filter fun e => e.who == g := by
  rw [List.filter_filter]
  apply List.filter_congr
  intro e _
  by_cases he : e.who = g
  · simp [he, hg]
  · simp [he]

theorem caller_events_of_actions (tr : List PipeEvent) (x y : PipeAction)
    (h : ((tr.filter fun e => e.who == Goroutine.caller).map PipeEvent.act) = [x, y]) :
    (tr.filter fun e => e.who == Goroutine.caller) =
      [{ who := Goroutine.caller, act := x }, { who := Goroutine.caller, act := y }] := by
  have hall : ∀ e ∈ tr.filter (fun e => e.who == Goroutine.caller), e.who = Goroutine.caller := by
    intro e he
    simpa using (List.mem_filter.mp he).2
  generalize (tr.filter fun e => e.who == Goroutine.caller) = l at h hall
  match l, h, hall with
  | [e1, e2], h, hall =>
    simp only [List.map_cons, List.map_nil, List.cons.injEq, and_true] at h
    have w1 := hall e1 (by simp)
    have w2 := hall e2 (by simp)
    cases e1
    cases e2
    simp_all

/-- C13: under every schedule of the three goroutines of `Pipe(a, b)`: a
copy direction that has closed its destination has done exactly two things,
returned from `io.Copy` and then closed the destination, by a half-close
when the destination supports one and by a full `Close` otherwise; the
caller is past `wg.Wait()` only when both directions have finished; and when
`Pipe` has returned, the trace ends with the caller's `Close` of `a` and of
`b`, after everything the two directions did. Some schedule makes `Pipe`
return. -/
theorem pipe_shutdown_discipline (a b : Peer) (sched : List Goroutine) :
    (∀ dst : Peer, shutdownDst dst =
        if dst.halfClose then PipeAction.closeWrite dst.conn else PipeAction.close dst.conn) ∧
      ((Pipe.run a b sched).ab = CopyState.shutDown ∨ (Pipe.run a b sched).ab = CopyState.done →
        (Pipe.run a b sched).actionsOf Goroutine.copyAB =
          [PipeAction.copyReturned a.conn b.conn, shutdownDst a]) ∧
      ((Pipe.run a b sched).ba = CopyState.shutDown ∨ (Pipe.run a b sched).ba = CopyState.done →
        (Pipe.run a b sched).actionsOf Goroutine.copyBA =
          [PipeAction.copyReturned b.conn a.conn, shutdownDst b]) ∧
      ((Pipe.run a b sched).caller = CallerState.woke ∨
          (Pipe.run a b sched).caller = CallerState.closedA ∨
          (Pipe.run a b sched).caller = CallerState.returned →
        (Pipe.run a b sched).ab = CopyState.done ∧ (Pipe.run a b sched).ba = CopyState.done) ∧
      ((Pipe.run a b sched).caller = CallerState.returned →
        ∃ pre, (Pipe.run a b sched).trace =
            pre ++ [{ who := Goroutine.caller, act := PipeAction.close a.conn },
              { who := Goroutine.caller, act := PipeAction.close b.conn }] ∧
          ((pre.filter fun e => e.who == Goroutine.copyAB).map PipeEvent.act) =
            [PipeAction.copyReturned a.conn b.conn, shutdownDst a] ∧
          ((pre.filter fun e => e.who == Goroutine.copyBA).map PipeEvent.act) =
            [PipeAction.copyReturned b.conn a.conn, shutdownDst b] ∧
          (pre.filter fun e => e.who == Goroutine.caller) = []) ∧
      (Pipe.run a b sampleSchedule).caller = CallerState.returned := by
  obtain ⟨h1, h2, h3, h4, h5⟩ := inv_run a b sched
  have hdone : (Pipe.run a b sched).caller = CallerState.woke ∨
      (Pipe.run a b sched).caller = CallerState.closedA ∨
      (Pipe.run a b sched).caller = CallerState.returned →
      (Pipe.run a b sched).ab = CopyState.done ∧ (Pipe.run a b sched).ba = CopyState.done := by
    intro hc
    rcases hc with hc | hc | hc <;>
      · rw [hc] at h5
        exact h5.2
  refine ⟨?_, ?_, ?_, hdone, ?_, ?_⟩
  · intro dst
    unfold shutdownDst BufferedConn.CloseWrite
    split_ifs <;> rfl
  · intro hs
    rw [h1]
    rcases hs with hs | hs <;> rw [hs] <;> rfl
  · intro hs
    rw [h2]
    rcases hs with hs | hs <;> rw [hs] <;> rfl
  · intro hc
    obtain ⟨d1, d2⟩ := hdone (Or.inr (Or.inr hc))
    rw [hc] at h3
    rw [d1] at h1
    rw [d2] at h2
    have hcall := caller_events_of_actions _ _ _ h3
    refine ⟨(Pipe.run a b sched).trace.filter fun e => e.who != Goroutine.caller, ?_, ?_, ?_, ?_⟩
    · rw [← hcall]
      exact h4
    · rw [filter_copy_of_not_caller _ _ (by decide)]
      exact h1
    · rw [filter_copy_of_not_caller _ _ (by decide)]
      exact h2
    · rw [List.filter_filter]
      apply List.filter_eq_nil_iff.mpr
      intro e _
      by_cases he : e.who = Goroutine.caller <;> simp [he]
  · simp [Pipe.run, sampleSchedule, Pipe.step, Pipe.init, Pipe.copyStep, CopyState.next]

/-- C13 on a buffered peer with half-close and a bare connection without,
under the sample schedule: the whole trace. -/
theorem pipe_shutdown_discipline_witness :
    (Pipe.run peerBuffered peerPlain sampleSchedule).caller = CallerState.returned ∧
      (Pipe.run peerBuffered peerPlain sampleSchedule).trace =
        [{ who := Goroutine.copyBA, act := PipeAction.copyReturned 2 1 },
          { who := Goroutine.copyAB, act := PipeAction.copyReturned 1 2 },
          { who := Goroutine.copyBA, act := PipeAction.close 2 },
          { who := Goroutine.copyAB, act := PipeAction.closeWrite 1 },
          { who := Goroutine.caller, act := PipeAction.close 1 },
          { who := Goroutine.caller, act := PipeAction.close 2 }] ∧
      (Pipe.run peerBuffered peerPlain sampleSchedule).ab = CopyState.done ∧
      (Pipe.run peerBuffered peerPlain sampleSchedule).ba = CopyState.done :=
  ⟨by decide, by decide,
    ((pipe_shutdown_discipline peerBuffered peerPlain sampleSchedule).2.2.2.1
      (Or.inr (Or.inr (by decide))))⟩

end Mssh
